import Mathlib

set_option maxRecDepth 40000

/-!
Verification of `src/Strava2Garmin/FixTCX.py` (`clean_strava_peloton_tcx`).

The XML document is embedded as an ordered tree of elements carrying a
qualified tag in Clark notation (`\x7bnamespace-uri\x7dlocalname`, exactly the
form `xml.etree.ElementTree` exposes to the Python code), an attribute list,
an optional text value and an ordered child list.  Python exceptions are
embedded as `Except PyErr`: `ValueError` raised by `float`/`round` is caught
by the source's `except ValueError` handlers, while `TypeError` (from
`float(None)`) and `OverflowError` (from `round` of an infinity) propagate
and abort the transformation, as they do in Python.

`float(text)` is modelled exactly over the decimal value of the literal,
kept as an integer pair `num / 10^k`; this agrees with CPython whenever the
decimal value is exactly representable as an IEEE-754 double (which covers
every string evaluated below), and it reproduces the conversion of
out-of-range literals to infinities at the IEEE overflow threshold.
Underscore digit grouping and non-ASCII digits/whitespace, which CPython's
`float` also accepts, are outside the model.
-/

/-- An XML element as seen through `xml.etree.ElementTree`: Clark-notation
tag, attribute list, optional text, ordered children. -/
inductive Elem where
  | mk : String → List (String × String) → Option String → List Elem → Elem

def Elem.tag : Elem → String
  | .mk t _ _ _ => t

def Elem.attrs : Elem → List (String × String)
  | .mk _ a _ _ => a

def Elem.text : Elem → Option String
  | .mk _ _ x _ => x

def Elem.children : Elem → List Elem
  | .mk _ _ _ cs => cs

def Elem.withTag (t : String) : Elem → Elem
  | .mk _ a x cs => .mk t a x cs

def Elem.withText (x : Option String) : Elem → Elem
  | .mk t a _ cs => .mk t a x cs

def Elem.withChildren (cs : List Elem) : Elem → Elem
  | .mk t a x _ => .mk t a x cs

mutual

def elemBEq : Elem → Elem → Bool
  | .mk t a x cs, .mk t2 a2 x2 cs2 =>
    decide (t = t2) && decide (a = a2) && decide (x = x2) && elemsBEq cs cs2

def elemsBEq : List Elem → List Elem → Bool
  | [], [] => true
  | c :: cs, d :: ds => elemBEq c d && elemsBEq cs ds
  | _, _ => false

end

mutual

theorem elemBEq_iff : ∀ a b : Elem, elemBEq a b = true ↔ a = b
  | .mk t a x cs, .mk t2 a2 x2 cs2 => by
    simp only [elemBEq, Bool.and_eq_true, decide_eq_true_eq, elemsBEq_iff cs cs2, Elem.mk.injEq]
    tauto

theorem elemsBEq_iff : ∀ l m : List Elem, elemsBEq l m = true ↔ l = m
  | [], [] => by simp [elemsBEq]
  | [], _ :: _ => by simp [elemsBEq]
  | _ :: _, [] => by simp [elemsBEq]
  | c :: cs, d :: ds => by
    simp [elemsBEq, elemBEq_iff c d, elemsBEq_iff cs ds]

end

instance : DecidableEq Elem := fun a b =>
  decidable_of_iff (elemBEq a b = true) (elemBEq_iff a b)

/-- Python exceptions that can escape the transformation. -/
inductive PyErr where
  | typeError
  | overflowError
  | fileNotFound (msg : String)
  | xmlParseError
deriving DecidableEq

instance {α β : Type} [DecidableEq α] [DecidableEq β] : DecidableEq (Except α β) :=
  fun a b =>
  match a, b with
  | .ok u, .ok v => decidable_of_iff (u = v) (by simp)
  | .error e, .error f => decidable_of_iff (e = f) (by simp)
  | .ok _, .error _ => isFalse (by simp)
  | .error _, .ok _ => isFalse (by simp)

/-! ## The two namespace URIs and Clark-notation helpers (lines 29-40, 113) -/

def ns_tcx : String := "http://www.garmin.com/xmlschemas/TrainingCenterDatabase/v2"

def ns_ext : String := "http://www.garmin.com/xmlschemas/ActivityExtension/v2"

/-- Clark-notation qualified name, as produced by the source's
f-strings over a namespace URI. -/
def qn (ns loc : String) : String := "\x7b" ++ ns ++ "\x7d" ++ loc

def qtcx (loc : String) : String := qn ns_tcx loc

def qext (loc : String) : String := qn ns_ext loc

def rbraceChar : Char := Char.ofNat 125

def localNameAux : List Char → List Char → List Char
  | cur, [] => cur.reverse
  | cur, c :: rest =>
    if c = rbraceChar then localNameAux [] rest else localNameAux (cur.cons c) rest

/-- `tag.split('\x7d')[-1]` from line 113: the part of the tag after the
last closing brace. -/
def localName (tag : String) : String := String.mk (localNameAux [] tag.data)

/-! ## The model of `float`, `round`, `int`, `str` -/

/-- The value categories `float(s)` can produce. -/
inductive FloatVal where
  | finite (num : Int) (den : Nat)
  | posInf
  | negInf
  | nan
deriving DecidableEq

/-- Characters removed by `str.strip()` (the ASCII whitespace subset). -/
def isPySpace (c : Char) : Bool :=
  c = ' ' || c = '\t' || c = '\n' || c = '\r' || c = '\x0b' || c = '\x0c'

def trimChars (cs : List Char) : List Char :=
  ((cs.dropWhile isPySpace).reverse.dropWhile isPySpace).reverse

/-- `content.strip()`. -/
def pyStrip (s : String) : String := String.mk (trimChars s.data)

def readDigits : List Char → List Char × List Char
  | [] => ([], [])
  | c :: cs =>
    if c.isDigit then
      let p := readDigits cs
      (p.1.cons c, p.2)
    else ([], c :: cs)

def digitsNat (ds : List Char) : Nat := ds.foldl (fun a c => 10 * a + (c.toNat - 48)) 0

def readSign : List Char → Bool × List Char
  | '+' :: cs => (false, cs)
  | '-' :: cs => (true, cs)
  | cs => (false, cs)

def expDigits (neg : Bool) (cs : List Char) : Option Int :=
  let p := readDigits cs
  if p.1.isEmpty then none
  else if ¬ p.2.isEmpty then none
  else some (if neg then -(digitsNat p.1 : Int) else (digitsNat p.1 : Int))

def parseExpPart : List Char → Option Int
  | [] => some 0
  | c :: rest =>
    if c = 'e' ∨ c = 'E' then
      match rest with
      | '+' :: rest2 => expDigits false rest2
      | '-' :: rest2 => expDigits true rest2
      | rest2 => expDigits false rest2
    else none

/-- Mantissa and exponent of a decimal float literal:
`(mantissa digits as a Nat, number of fraction digits, exponent)`. -/
def parseMagnitude (cs : List Char) : Option (Nat × Nat × Int) :=
  let p := readDigits cs
  match p.2 with
  | '.' :: rest =>
    let f := readDigits rest
    if p.1.isEmpty ∧ f.1.isEmpty then none
    else
      match parseExpPart f.2 with
      | none => none
      | some e => some (digitsNat (p.1 ++ f.1), f.1.length, e)
  | rest =>
    if p.1.isEmpty then none
    else
      match parseExpPart rest with
      | none => none
      | some e => some (digitsNat p.1, 0, e)

/-- Magnitudes at or above this bound convert to an IEEE-754 double
infinity (the midpoint above the largest finite double). -/
def overflowBound : Nat := 2 ^ 1024 - 2 ^ 970

/-- Assemble `± M * 10^e / 10^k` into a `FloatVal`, as an exact
`num / den` pair with `den` a power of ten. -/
def floatOfParts (neg : Bool) (M k : Nat) (e : Int) : FloatVal :=
  let E : Int := e - k
  if 0 ≤ E then
    let V : Nat := M * 10 ^ E.toNat
    if overflowBound ≤ V then (if neg then .negInf else .posInf)
    else .finite (if neg then -(V : Int) else (V : Int)) 1
  else
    let d : Nat := (-E).toNat
    if overflowBound * 10 ^ d ≤ M then (if neg then .negInf else .posInf)
    else .finite (if neg then -(M : Int) else (M : Int)) (10 ^ d)

/-- The model of `float(s)`: `none` is a `ValueError`. -/
def parsePyFloat (s : String) : Option FloatVal :=
  let cs := trimChars s.data
  let sgn := readSign cs
  let lower := sgn.2.map Char.toLower
  if lower = "inf".data ∨ lower = "infinity".data then
    some (if sgn.1 then .negInf else .posInf)
  else if lower = "nan".data then some .nan
  else
    match parseMagnitude sgn.2 with
    | none => none
    | some mek => some (floatOfParts sgn.1 mek.1 mek.2.1 mek.2.2)

/-- Python `round` (one-argument form) of the exact value `num / den`:
nearest integer, ties to the even neighbour. -/
def pyRoundDec (num : Int) (den : Nat) : Int :=
  let f := Int.fdiv num den
  let r := num - f * den
  if 2 * r < (den : Int) then f
  else if (den : Int) < 2 * r then f + 1
  else if f % 2 = 0 then f else f + 1

/-- `text = str(int(round(float(text))))` under `except ValueError: pass`
(lines 75-78 and the analogous sites).  `float(None)` raises `TypeError`
and `round` of an infinity raises `OverflowError`; neither is caught by
the source's `except ValueError` handler, so both escape. -/
def roundFieldText : Option String → Except PyErr (Option String)
  | none => .error .typeError
  | some s =>
    match parsePyFloat s with
    | none => .ok (some s)
    | some .nan => .ok (some s)
    | some .posInf => .error .overflowError
    | some .negInf => .error .overflowError
    | some (.finite num den) => .ok (some (toString (pyRoundDec num den)))

/-- The rounding of lap-extension children (lines 119-123): guarded by
`if child.text:`, so absent or empty text is skipped rather than passed
to `float`. -/
def roundGuardedText : Option String → Except PyErr (Option String)
  | none => .ok none
  | some s =>
    if s = "" then .ok (some s)
    else
      match parsePyFloat s with
      | none => .ok (some s)
      | some .nan => .ok (some s)
      | some .posInf => .error .overflowError
      | some .negInf => .error .overflowError
      | some (.finite num den) => .ok (some (toString (pyRoundDec num den)))

/-! ## Tree-editing combinators

`Element.find(path)` returns the first match in document order and the
source then mutates that single element (or removes it from its parent);
each combinator below rebuilds the tree with that one mutation applied. -/

/-- Drop the first child carrying `tag` (e.g. `lap.remove(cadence)`). -/
def removeFirstTag (tag : String) : List Elem → List Elem
  | [] => []
  | c :: cs => if c.tag = tag then cs else (removeFirstTag tag cs).cons c

def removeFirstChild (tag : String) (e : Elem) : Elem :=
  e.withChildren (removeFirstTag tag e.children)

/-- Apply `f` to the first child carrying `tag`, if any. -/
def updFirstTagL (tag : String) (f : Elem → Except PyErr Elem) :
    List Elem → Except PyErr (List Elem)
  | [] => .ok []
  | c :: cs =>
    if c.tag = tag then
      match f c with
      | .error e => .error e
      | .ok c2 => .ok (c2 :: cs)
    else
      match updFirstTagL tag f cs with
      | .error e => .error e
      | .ok cs2 => .ok (c :: cs2)

def updFirstChild (tag : String) (f : Elem → Except PyErr Elem) (e : Elem) :
    Except PyErr Elem :=
  match updFirstTagL tag f e.children with
  | .error err => .error err
  | .ok cs => .ok (e.withChildren cs)

/-- `x = e.find(tag); if x is not None: round x.text in place`. -/
def roundFirstChildText (tag : String) (e : Elem) : Except PyErr Elem :=
  updFirstChild tag
    (fun c =>
      match roundFieldText c.text with
      | .error err => .error err
      | .ok t2 => .ok (c.withText t2)) e

def hasChildTag (tag : String) (e : Elem) : Bool :=
  e.children.any (fun c => c.tag = tag)

/-- `e.find("A/B")`: the first `B` child of the first `A` child that has
one, whose text is then rounded in place (the heart-rate `Value` sites). -/
def roundPath2L (ta tb : String) : List Elem → Except PyErr (List Elem)
  | [] => .ok []
  | c :: cs =>
    if c.tag = ta ∧ hasChildTag tb c then
      match updFirstTagL tb
          (fun b =>
            match roundFieldText b.text with
            | .error err => .error err
            | .ok t2 => .ok (b.withText t2)) c.children with
      | .error err => .error err
      | .ok cs2 => .ok (c.withChildren cs2 :: cs)
    else
      match roundPath2L ta tb cs with
      | .error err => .error err
      | .ok cs2 => .ok (c :: cs2)

def roundPath2Text (ta tb : String) (e : Elem) : Except PyErr Elem :=
  match roundPath2L ta tb e.children with
  | .error err => .error err
  | .ok cs => .ok (e.withChildren cs)

mutual

/-- Apply the pure `f` to the first strict descendant carrying `p`, in
document order (`root.find(".//Activity")` followed by one mutation).
The boolean records whether the target was found. -/
def updFirstDescE (p : String) (f : Elem → Elem) : Elem → Elem × Bool
  | .mk t a x cs =>
    if t = p then (f (.mk t a x cs), true)
    else
      let r := updFirstDescL p f cs
      (.mk t a x r.1, r.2)

def updFirstDescL (p : String) (f : Elem → Elem) : List Elem → List Elem × Bool
  | [] => ([], false)
  | c :: cs =>
    let r := updFirstDescE p f c
    if r.2 then (r.1 :: cs, true)
    else
      let r2 := updFirstDescL p f cs
      (r2.1.cons r.1, r2.2)

end

def updFirstDescendant (p : String) (f : Elem → Elem) : Elem → Elem
  | .mk t a x cs => .mk t a x (updFirstDescL p f cs).1

mutual

/-- Apply `f` to every strict descendant carrying `p`
(`root.findall(".//Lap")` and the loop over it).  The source mutates the
pre-collected elements in document order; since `f` only edits the
subtree of its argument and never creates elements carrying `p`, the
same document and the same error domain result from this bottom-up
rebuild, which is structurally recursive. -/
def mapTaggedE (p : String) (f : Elem → Except PyErr Elem) : Elem → Except PyErr Elem
  | .mk t a x cs =>
    match mapTaggedL p f cs with
    | .error e => .error e
    | .ok cs2 =>
      if t = p then f (.mk t a x cs2) else .ok (.mk t a x cs2)

def mapTaggedL (p : String) (f : Elem → Except PyErr Elem) :
    List Elem → Except PyErr (List Elem)
  | [] => .ok []
  | c :: cs =>
    match mapTaggedE p f c with
    | .error e => .error e
    | .ok c2 =>
      match mapTaggedL p f cs with
      | .error e => .error e
      | .ok cs2 => .ok (c2 :: cs2)

end

/-- Strict descendants only: `.//` never matches the root itself. -/
def mapTaggedDesc (p : String) (f : Elem → Except PyErr Elem) : Elem → Except PyErr Elem
  | .mk t a x cs =>
    match mapTaggedL p f cs with
    | .error e => .error e
    | .ok cs2 => .ok (.mk t a x cs2)

/-! ## The edit pass of `clean_strava_peloton_tcx` (lines 58-158) -/

/-- The rename table of lines 105-110. -/
def renameLocal (loc : String) : Option String :=
  if loc = "AverageCadence" then some "AvgCadence"
  else if loc = "MaximumCadence" then some "MaxCadence"
  else if loc = "AverageWatts" then some "AvgWatts"
  else if loc = "MaximumWatts" then some "MaxWatts"
  else none

/-- Line 114: lap-extension children removed by local name. -/
def removableLapExt (loc : String) : Bool :=
  loc == "TotalPower" || loc == "AverageResistance" || loc == "MaximumResistance"

/-- One iteration of the loop of lines 112-123 over a lap `TPX` child:
rename (unless marked for removal, the `elif`), then round the text when
present and non-empty.  Removal itself happens after the loop. -/
def tpxChildStep (c : Elem) : Except PyErr Elem :=
  let c2 :=
    if removableLapExt (localName c.tag) then c
    else
      match renameLocal (localName c.tag) with
      | some newLoc => c.withTag (qext newLoc)
      | none => c
  match roundGuardedText c2.text with
  | .error e => .error e
  | .ok t2 => .ok (c2.withText t2)

def tpxChildrenStep : List Elem → Except PyErr (List Elem)
  | [] => .ok []
  | c :: cs =>
    match tpxChildStep c with
    | .error e => .error e
    | .ok c2 =>
      match tpxChildrenStep cs with
      | .error e => .error e
      | .ok cs2 => .ok (c2 :: cs2)

/-- Lines 100-125: retag the lap `TPX` block to `LX`, process its
children, then remove the collected `TotalPower` / `AverageResistance` /
`MaximumResistance` children. -/
def tpxLapStep (tpx : Elem) : Except PyErr Elem :=
  match tpxChildrenStep tpx.children with
  | .error e => .error e
  | .ok cs =>
    .ok (Elem.mk (qext "LX") tpx.attrs tpx.text
      (cs.filter (fun c => ! removableLapExt (localName c.tag))))

/-- Lines 66-125: the per-lap edits, in source order. -/
def lapProcess (lap : Elem) : Except PyErr Elem :=
  match roundFirstChildText (qtcx "Calories") (removeFirstChild (qtcx "Cadence") lap) with
  | .error e => .error e
  | .ok lap2 =>
    match roundPath2Text (qtcx "AverageHeartRateBpm") (qtcx "Value") lap2 with
    | .error e => .error e
    | .ok lap3 =>
      match roundPath2Text (qtcx "MaximumHeartRateBpm") (qtcx "Value") lap3 with
      | .error e => .error e
      | .ok lap4 => updFirstChild (qtcx "Extensions") (updFirstChild (qext "TPX") tpxLapStep) lap4

/-- Lines 150-158: in a trackpoint `TPX` block, remove the first
`Resistance` child and round the first `Watts` child's text. -/
def tpExtTpxStep (tpx : Elem) : Except PyErr Elem :=
  roundFirstChildText (qext "Watts") (removeFirstChild (qext "Resistance") tpx)

/-- Lines 128-158: the per-trackpoint edits, in source order. -/
def tpProcess (tp : Elem) : Except PyErr Elem :=
  match roundPath2Text (qtcx "HeartRateBpm") (qtcx "Value") tp with
  | .error e => .error e
  | .ok tp1 =>
    match roundFirstChildText (qtcx "Cadence") tp1 with
    | .error e => .error e
    | .ok tp2 => updFirstChild (qtcx "Extensions") (updFirstChild (qext "TPX") tpExtTpxStep) tp2

/-- Lines 58-63: remove the first `Creator` child of the first `Activity`
descendant, when both exist. -/
def removeCreatorStep (root : Elem) : Elem :=
  updFirstDescendant (qtcx "Activity") (removeFirstChild (qtcx "Creator")) root

/-- Lines 58-158: the whole edit pass on the parsed tree. -/
def cleanTree (root : Elem) : Except PyErr Elem :=
  match mapTaggedDesc (qtcx "Lap") lapProcess (removeCreatorStep root) with
  | .error e => .error e
  | .ok r2 => mapTaggedDesc (qtcx "Trackpoint") tpProcess r2

/-! ## Content recovery, retry and the file-level contract (lines 25-56, 160-168) -/

def startsWithL : List Char → List Char → Bool
  | [], _ => true
  | _ :: _, [] => false
  | p :: ps, c :: cs => p = c && startsWithL ps cs

/-- Index of the first occurrence of `pat` (`content.find`), if any. -/
def findSubL (pat : List Char) : List Char → Option Nat
  | [] => if pat.isEmpty then some 0 else none
  | c :: cs =>
    if startsWithL pat (c :: cs) then some 0
    else
      match findSubL pat cs with
      | none => none
      | some i => some (i + 1)

/-- Lines 50-52: on a parse failure, when the content starts with
`<?xml`, drop everything through the first `?>` and strip again;
`find` returning `-1` makes the slice start at index `1`. -/
def recoverContent (content : String) : String :=
  if startsWithL "<?xml".data content.data then
    match findSubL "?>".data content.data with
    | some i => String.mk (trimChars (content.data.drop (i + 2)))
    | none => String.mk (trimChars (content.data.drop 1))
  else content

/-- Lines 47-56: first parse attempt, the single recovery retry, and the
final `ValueError`.  `parseXML` stands for `ET.fromstring`. -/
def parseWithRetry (parseXML : String → Option Elem) (content : String) :
    Except PyErr Elem :=
  match parseXML content with
  | some root => .ok root
  | none =>
    match parseXML (recoverContent content) with
    | some root => .ok root
    | none => .error .xmlParseError

/-- The file system: a path-to-content association, newest entry first. -/
structure FS where
  files : List (String × String)

def FS.lookup (fs : FS) (p : String) : Option String :=
  fs.files.lookup p

def FS.write (fs : FS) (p data : String) : FS :=
  ⟨(p, data) :: fs.files⟩

/-- Lines 25-168: the full contract of `clean_strava_peloton_tcx`.
`parseXML` and `serialize` stand for `ET.fromstring` and
`ElementTree.write`; the result pairs the updated file system with the
returned output path. -/
def clean_strava_peloton_tcx (parseXML : String → Option Elem) (serialize : Elem → String)
    (fs : FS) (inputFile : String) (outputFile : Option String) :
    Except PyErr (FS × String) :=
  match FS.lookup fs inputFile with
  | none => .error (.fileNotFound ("Input file '" ++ inputFile ++ "' not found."))
  | some raw =>
    match parseWithRetry parseXML (pyStrip raw) with
    | .error e => .error e
    | .ok root =>
      match cleanTree root with
      | .error e => .error e
      | .ok cleaned =>
        let out :=
          match outputFile with
          | none => inputFile
          | some o => o
        .ok (FS.write fs out (serialize cleaned), out)

/-! ## Search helpers mirroring `find`, used to state properties -/

/-- The element `cs.find(tag)` would return: first child carrying `tag`. -/
def firstTag (tag : String) : List Elem → Option Elem
  | [] => none
  | c :: cs => if c.tag = tag then some c else firstTag tag cs

mutual

/-- The element `root.find(".//p")` would return (pre-order, strict
descendants only at the top level). -/
def firstDescE (p : String) : Elem → Option Elem
  | .mk t a x cs => if t = p then some (.mk t a x cs) else firstDescL p cs

def firstDescL (p : String) : List Elem → Option Elem
  | [] => none
  | c :: cs =>
    match firstDescE p c with
    | some e => some e
    | none => firstDescL p cs

end

/-- The element `e.find("ta/tb")` would return: the first `tb` child of
the first `ta` child that has one. -/
def firstPath2 (ta tb : String) : List Elem → Option Elem
  | [] => none
  | c :: cs =>
    if c.tag = ta ∧ hasChildTag tb c then firstTag tb c.children
    else firstPath2 ta tb cs

mutual

/-- Number of elements carrying `p` in the subtree, the element itself
included. -/
def countTagE (p : String) : Elem → Nat
  | .mk t _ _ cs => (if t = p then 1 else 0) + countTagL p cs

def countTagL (p : String) : List Elem → Nat
  | [] => 0
  | c :: cs => countTagE p c + countTagL p cs

end

mutual

/-- Every element carrying `p` in the subtree (itself included)
satisfies `B`. -/
def allTaggedE (p : String) (B : Elem → Bool) : Elem → Bool
  | .mk t a x cs => (!(t == p) || B (.mk t a x cs)) && allTaggedL p B cs

def allTaggedL (p : String) (B : Elem → Bool) : List Elem → Bool
  | [] => true
  | c :: cs => allTaggedE p B c && allTaggedL p B cs

end

/-! ## Stability: documents the edit pass maps to themselves -/

/-- A text value on which the unguarded rounding site is the identity:
present, and either not a finite float or already its own rounding. -/
def textRoundStable (x : Option String) : Bool :=
  match x with
  | none => false
  | some s =>
    match parsePyFloat s with
    | none => true
    | some .nan => true
    | some (.finite num den) => toString (pyRoundDec num den) == s
    | some .posInf => false
    | some .negInf => false

def optTextStable : Option Elem → Bool
  | none => true
  | some b => textRoundStable b.text

/-- No lap-extension `TPX` block is present that the pass would retag. -/
def optNoTPX : Option Elem → Bool
  | none => true
  | some ext => !(hasChildTag (qext "TPX") ext)

/-- A trackpoint `TPX` block the pass would not change: no `Resistance`
child, `Watts` text already its own rounding. -/
def optTpxStable : Option Elem → Bool
  | none => true
  | some tpx =>
    !(hasChildTag (qext "Resistance") tpx) &&
    optTextStable (firstTag (qext "Watts") tpx.children)

def optExtStableTp : Option Elem → Bool
  | none => true
  | some ext => optTpxStable (firstTag (qext "TPX") ext.children)

/-- A lap none of the per-lap edits of lines 66-125 would change. -/
def lapStable (lap : Elem) : Bool :=
  !(hasChildTag (qtcx "Cadence") lap) &&
  optTextStable (firstTag (qtcx "Calories") lap.children) &&
  optTextStable (firstPath2 (qtcx "AverageHeartRateBpm") (qtcx "Value") lap.children) &&
  optTextStable (firstPath2 (qtcx "MaximumHeartRateBpm") (qtcx "Value") lap.children) &&
  optNoTPX (firstTag (qtcx "Extensions") lap.children)

/-- A trackpoint none of the per-trackpoint edits of lines 128-158 would
change. -/
def tpStable (tp : Elem) : Bool :=
  optTextStable (firstPath2 (qtcx "HeartRateBpm") (qtcx "Value") tp.children) &&
  optTextStable (firstTag (qtcx "Cadence") tp.children) &&
  optExtStableTp (firstTag (qtcx "Extensions") tp.children)

/-- The Creator-removal step of lines 58-63 would be a no-op. -/
def creatorStable (root : Elem) : Bool :=
  match firstDescL (qtcx "Activity") root.children with
  | none => true
  | some act => !(hasChildTag (qtcx "Creator") act)

/-- A document the whole edit pass maps to itself: nothing is left for
the Creator removal, and every `Lap` and `Trackpoint` descendant is
already in its cleaned shape. -/
def cleanStable (root : Elem) : Bool :=
  creatorStable root &&
  allTaggedL (qtcx "Lap") lapStable root.children &&
  allTaggedL (qtcx "Trackpoint") tpStable root.children

/-! ## Identity lemmas: the edit pass fixes stable documents -/

theorem Elem.withText_self (e : Elem) : e.withText e.text = e := by
  cases e
  rfl

theorem Elem.withChildren_self (e : Elem) : e.withChildren e.children = e := by
  cases e
  rfl

theorem textRoundStable_roundFieldText (x : Option String)
    (h : textRoundStable x = true) : roundFieldText x = .ok x := by
  cases x with
  | none => simp [textRoundStable] at h
  | some s =>
    simp only [textRoundStable] at h
    cases hp : parsePyFloat s with
    | none => simp [roundFieldText, hp]
    | some v =>
      cases v <;> simp [hp] at h <;> simp [roundFieldText, hp]
      exact h

theorem removeFirstTag_of_absent (tag : String) (cs : List Elem)
    (h : cs.any (fun c => c.tag = tag) = false) : removeFirstTag tag cs = cs := by
  induction cs with
  | nil => rfl
  | cons c cs ih =>
    simp only [List.any_cons, Bool.or_eq_false_iff, decide_eq_false_iff_not] at h
    simp [removeFirstTag, h.1, ih h.2]

theorem removeFirstChild_of_absent (tag : String) (e : Elem)
    (h : hasChildTag tag e = false) : removeFirstChild tag e = e := by
  unfold hasChildTag at h
  unfold removeFirstChild
  rw [removeFirstTag_of_absent tag e.children h, Elem.withChildren_self]

theorem updFirstTagL_of_absent (tag : String) (f : Elem → Except PyErr Elem)
    (cs : List Elem) (h : firstTag tag cs = none) : updFirstTagL tag f cs = .ok cs := by
  induction cs with
  | nil => rfl
  | cons c cs ih =>
    simp only [firstTag] at h
    by_cases hc : c.tag = tag
    · simp [hc] at h
    · simp only [hc, if_false] at h
      simp [updFirstTagL, hc, ih h]

theorem updFirstTagL_of_fix (tag : String) (f : Elem → Except PyErr Elem)
    (cs : List Elem) (c : Elem) (h : firstTag tag cs = some c) (hf : f c = .ok c) :
    updFirstTagL tag f cs = .ok cs := by
  induction cs with
  | nil => simp [firstTag] at h
  | cons d cs ih =>
    simp only [firstTag] at h
    by_cases hd : d.tag = tag
    · simp only [hd, if_true, Option.some.injEq] at h
      subst h
      simp [updFirstTagL, hd, hf]
    · simp only [hd, if_false] at h
      simp [updFirstTagL, hd, ih h]

theorem updFirstChild_of_absent (tag : String) (f : Elem → Except PyErr Elem)
    (e : Elem) (h : firstTag tag e.children = none) : updFirstChild tag f e = .ok e := by
  unfold updFirstChild
  rw [updFirstTagL_of_absent tag f e.children h]
  simp [Elem.withChildren_self]

theorem updFirstChild_of_fix (tag : String) (f : Elem → Except PyErr Elem)
    (e c : Elem) (h : firstTag tag e.children = some c) (hf : f c = .ok c) :
    updFirstChild tag f e = .ok e := by
  unfold updFirstChild
  rw [updFirstTagL_of_fix tag f e.children c h hf]
  simp [Elem.withChildren_self]

theorem roundFieldText_fix_elem (c : Elem) (h : textRoundStable c.text = true) :
    (match roundFieldText c.text with
     | .error err => (.error err : Except PyErr Elem)
     | .ok t2 => .ok (c.withText t2)) = .ok c := by
  rw [textRoundStable_roundFieldText c.text h]
  simp [Elem.withText_self]

theorem roundFirstChildText_id (tag : String) (e : Elem)
    (h : optTextStable (firstTag tag e.children) = true) :
    roundFirstChildText tag e = .ok e := by
  cases hf : firstTag tag e.children with
  | none => exact updFirstChild_of_absent tag _ e hf
  | some c =>
    rw [hf] at h
    simp only [optTextStable] at h
    exact updFirstChild_of_fix tag _ e c hf (roundFieldText_fix_elem c h)

theorem firstTag_some_any (tag : String) (cs : List Elem) (b : Elem)
    (h : firstTag tag cs = some b) : cs.any (fun c => c.tag = tag) = true := by
  induction cs with
  | nil => simp [firstTag] at h
  | cons c cs ih =>
    by_cases hc : c.tag = tag
    · simp [hc]
    · simp only [firstTag, hc, if_false] at h
      simp [List.any_cons, ih h]

theorem firstTag_isSome_of_any (tag : String) (cs : List Elem)
    (h : cs.any (fun c => c.tag = tag) = true) : ∃ c, firstTag tag cs = some c := by
  induction cs with
  | nil => simp at h
  | cons c cs ih =>
    by_cases hc : c.tag = tag
    · exact ⟨c, by simp [firstTag, hc]⟩
    · simp only [List.any_cons, hc, decide_eq_true_eq, Bool.or_eq_true, false_or] at h
      obtain ⟨b, hb⟩ := ih (by simpa using h)
      exact ⟨b, by simp [firstTag, hc, hb]⟩

theorem roundPath2L_id (ta tb : String) (cs : List Elem)
    (h : optTextStable (firstPath2 ta tb cs) = true) : roundPath2L ta tb cs = .ok cs := by
  induction cs with
  | nil => rfl
  | cons c cs ih =>
    by_cases hc : c.tag = ta ∧ hasChildTag tb c
    · rw [firstPath2, if_pos hc] at h
      obtain ⟨b, hb⟩ := firstTag_isSome_of_any tb c.children hc.2
      rw [hb] at h
      simp only [optTextStable] at h
      have hupd : updFirstTagL tb
          (fun b =>
            match roundFieldText b.text with
            | .error err => .error err
            | .ok t2 => .ok (b.withText t2)) c.children = .ok c.children :=
        updFirstTagL_of_fix tb _ c.children b hb (roundFieldText_fix_elem b h)
      rw [roundPath2L, if_pos hc, hupd]
      simp [Elem.withChildren_self]
    · rw [firstPath2, if_neg hc] at h
      rw [roundPath2L, if_neg hc, ih h]

theorem roundPath2Text_id (ta tb : String) (e : Elem)
    (h : optTextStable (firstPath2 ta tb e.children) = true) :
    roundPath2Text ta tb e = .ok e := by
  unfold roundPath2Text
  rw [roundPath2L_id ta tb e.children h]
  simp [Elem.withChildren_self]

theorem lapStable_lapProcess (lap : Elem) (h : lapStable lap = true) :
    lapProcess lap = .ok lap := by
  simp only [lapStable, Bool.and_eq_true, Bool.not_eq_true'] at h
  obtain ⟨⟨⟨⟨hcad, hcal⟩, havg⟩, hmax⟩, hext⟩ := h
  unfold lapProcess
  simp only [removeFirstChild_of_absent _ _ hcad,
    roundFirstChildText_id (qtcx "Calories") lap hcal,
    roundPath2Text_id _ _ _ havg, roundPath2Text_id _ _ _ hmax]
  cases hf : firstTag (qtcx "Extensions") lap.children with
  | none => exact updFirstChild_of_absent _ _ lap hf
  | some ext =>
    rw [hf] at hext
    simp only [optNoTPX, Bool.not_eq_true'] at hext
    refine updFirstChild_of_fix _ _ lap ext hf ?_
    refine updFirstChild_of_absent _ _ ext ?_
    cases hg : firstTag (qext "TPX") ext.children with
    | none => rfl
    | some tpx =>
      exfalso
      have hany := firstTag_some_any _ _ _ hg
      rw [hasChildTag, hany] at hext
      cases hext

theorem tpStable_tpProcess (tp : Elem) (h : tpStable tp = true) :
    tpProcess tp = .ok tp := by
  simp only [tpStable, Bool.and_eq_true] at h
  obtain ⟨⟨hhr, hcad⟩, hext⟩ := h
  unfold tpProcess
  simp only [roundPath2Text_id _ _ _ hhr,
    roundFirstChildText_id (qtcx "Cadence") tp hcad]
  cases hf : firstTag (qtcx "Extensions") tp.children with
  | none => exact updFirstChild_of_absent _ _ tp hf
  | some ext =>
    rw [hf] at hext
    simp only [optExtStableTp] at hext
    refine updFirstChild_of_fix _ _ tp ext hf ?_
    cases hg : firstTag (qext "TPX") ext.children with
    | none => exact updFirstChild_of_absent _ _ ext hg
    | some tpx =>
      rw [hg] at hext
      simp only [optTpxStable, Bool.and_eq_true, Bool.not_eq_true'] at hext
      obtain ⟨hres, hwat⟩ := hext
      refine updFirstChild_of_fix _ _ ext tpx hg ?_
      unfold tpExtTpxStep
      rw [removeFirstChild_of_absent _ _ hres]
      exact roundFirstChildText_id (qext "Watts") tpx hwat

mutual

theorem updFirstDescE_snd_false (p : String) (f : Elem → Elem) :
    ∀ e : Elem, (updFirstDescE p f e).2 = false → firstDescE p e = none
  | .mk t a x cs => by
    intro h
    by_cases ht : t = p
    · simp [updFirstDescE, ht] at h
    · simp only [updFirstDescE, ht, if_false] at h
      simp only [firstDescE, ht, if_false]
      exact updFirstDescL_snd_false p f cs h

theorem updFirstDescL_snd_false (p : String) (f : Elem → Elem) :
    ∀ cs : List Elem, (updFirstDescL p f cs).2 = false → firstDescL p cs = none
  | [] => by intro _; rfl
  | c :: cs => by
    intro h
    simp only [updFirstDescL] at h
    by_cases hc : (updFirstDescE p f c).2 = true
    · simp [hc] at h
    · rw [Bool.not_eq_true] at hc
      simp only [hc, Bool.false_eq_true, if_false] at h
      simp only [firstDescL, updFirstDescE_snd_false p f c hc]
      exact updFirstDescL_snd_false p f cs h

end

mutual

theorem updFirstDescE_id (p : String) (f : Elem → Elem) :
    ∀ e : Elem, (∀ a, firstDescE p e = some a → f a = a) →
      (updFirstDescE p f e).1 = e
  | .mk t a x cs => by
    intro hfix
    by_cases ht : t = p
    · subst ht
      have : firstDescE t (.mk t a x cs) = some (.mk t a x cs) := by
        simp [firstDescE]
      simp [updFirstDescE, hfix _ this]
    · simp only [updFirstDescE, ht, if_false]
      have : (updFirstDescL p f cs).1 = cs := by
        refine updFirstDescL_id p f cs ?_
        intro b hb
        refine hfix b ?_
        simp [firstDescE, ht, hb]
      simp [this]

theorem updFirstDescL_id (p : String) (f : Elem → Elem) :
    ∀ cs : List Elem, (∀ a, firstDescL p cs = some a → f a = a) →
      (updFirstDescL p f cs).1 = cs
  | [] => by intro _; rfl
  | c :: cs => by
    intro hfix
    have hc1 : (updFirstDescE p f c).1 = c := by
      refine updFirstDescE_id p f c ?_
      intro b hb
      refine hfix b ?_
      simp [firstDescL, hb]
    simp only [updFirstDescL]
    by_cases hc : (updFirstDescE p f c).2 = true
    · simp [hc, hc1]
    · rw [Bool.not_eq_true] at hc
      have hnone := updFirstDescE_snd_false p f c hc
      have hcs : (updFirstDescL p f cs).1 = cs := by
        refine updFirstDescL_id p f cs ?_
        intro b hb
        refine hfix b ?_
        simp [firstDescL, hnone, hb]
      simp [hc, hc1, hcs]

end

theorem creatorStable_removeCreator (u : Elem) (h : creatorStable u = true) :
    removeCreatorStep u = u := by
  unfold creatorStable at h
  cases u with
  | mk t a x cs =>
    simp only [removeCreatorStep, updFirstDescendant]
    have : (updFirstDescL (qtcx "Activity") (removeFirstChild (qtcx "Creator")) cs).1 = cs := by
      refine updFirstDescL_id _ _ cs ?_
      intro act hact
      simp only [Elem.children] at h
      rw [hact] at h
      simp only [Bool.not_eq_true'] at h
      exact removeFirstChild_of_absent _ _ h
    rw [this]

mutual

theorem mapTaggedE_id (p : String) (B : Elem → Bool) (f : Elem → Except PyErr Elem)
    (hf : ∀ e, e.tag = p → B e = true → f e = .ok e) :
    ∀ e : Elem, allTaggedE p B e = true → mapTaggedE p f e = .ok e
  | .mk t a x cs => by
    intro h
    simp only [allTaggedE, Bool.and_eq_true] at h
    obtain ⟨hself, hkids⟩ := h
    have hcs := mapTaggedL_id p B f hf cs hkids
    simp only [mapTaggedE, hcs]
    by_cases ht : t = p
    · subst ht
      have hB : B (.mk t a x cs) = true := by
        rcases Bool.or_eq_true _ _ |>.mp hself with h1 | h1
        · rw [Bool.not_eq_true', beq_eq_false_iff_ne] at h1
          exact absurd rfl h1
        · exact h1
      simp only [if_true]
      exact hf _ rfl hB
    · simp [ht]

theorem mapTaggedL_id (p : String) (B : Elem → Bool) (f : Elem → Except PyErr Elem)
    (hf : ∀ e, e.tag = p → B e = true → f e = .ok e) :
    ∀ cs : List Elem, allTaggedL p B cs = true → mapTaggedL p f cs = .ok cs
  | [] => by intro _; rfl
  | c :: cs => by
    intro h
    simp only [allTaggedL, Bool.and_eq_true] at h
    simp [mapTaggedL, mapTaggedE_id p B f hf c h.1, mapTaggedL_id p B f hf cs h.2]

end

theorem mapTaggedDesc_id (p : String) (B : Elem → Bool) (f : Elem → Except PyErr Elem)
    (hf : ∀ e, e.tag = p → B e = true → f e = .ok e)
    (u : Elem) (h : allTaggedL p B u.children = true) : mapTaggedDesc p f u = .ok u := by
  cases u with
  | mk t a x cs =>
    simp only [Elem.children] at h
    simp [mapTaggedDesc, mapTaggedL_id p B f hf cs h]

/-- A stable document is a fixed point of the whole edit pass. -/
theorem cleanStable_cleanTree (u : Elem) (h : cleanStable u = true) :
    cleanTree u = .ok u := by
  simp only [cleanStable, Bool.and_eq_true] at h
  obtain ⟨⟨hcr, hlap⟩, htp⟩ := h
  unfold cleanTree
  rw [creatorStable_removeCreator u hcr]
  rw [mapTaggedDesc_id _ lapStable lapProcess
    (fun e _ hB => lapStable_lapProcess e hB) u hlap]
  exact mapTaggedDesc_id _ tpStable tpProcess
    (fun e _ hB => tpStable_tpProcess e hB) u htp

/-! ## The frame relation

`FrameRel t u` captures the spec's edit vocabulary, stated from the
spec's frame sentence: attributes never change, a tag changes only along
the fixed rename mapping, text changes only to an integer string,
children are only dropped (never reordered or inserted), and only
elements of the documented removal sets are dropped. -/

/-- The tag pairs of the fixed rename mapping (lines 102-117): the four
child renames act on the local name, the container retag on `TPX`. -/
def renamedPair (ti tb : String) : Prop :=
  (localName ti = "AverageCadence" ∧ tb = qext "AvgCadence") ∨
  (localName ti = "MaximumCadence" ∧ tb = qext "MaxCadence") ∨
  (localName ti = "AverageWatts" ∧ tb = qext "AvgWatts") ∨
  (localName ti = "MaximumWatts" ∧ tb = qext "MaxWatts") ∨
  (ti = qext "TPX" ∧ tb = qext "LX")

/-- Tags of the documented removal sets: `Creator` under an activity,
`Cadence` under a lap, `Resistance` in a trackpoint extension block, and
the three lap-extension fields removed by local name. -/
def droppableTag (t : String) : Bool :=
  t == qtcx "Creator" || t == qtcx "Cadence" || t == qext "Resistance" ||
  removableLapExt (localName t)

/-- A text edit of the pass: unchanged, or an integer string. -/
def textLike (xi xb : Option String) : Prop :=
  xb = xi ∨ ∃ n : Int, xb = some (toString n)

mutual

def FrameRel : Elem → Elem → Prop
  | .mk t1 a1 x1 c1, .mk t2 a2 x2 c2 =>
    a2 = a1 ∧ (t2 = t1 ∨ renamedPair t1 t2) ∧ textLike x1 x2 ∧ FrameRelL c1 c2

def FrameRelL : List Elem → List Elem → Prop
  | [], ds => ds = []
  | c :: cs, ds =>
    (droppableTag c.tag = true ∧ FrameRelL cs ds) ∨
    (∃ d ds2, ds = d :: ds2 ∧ FrameRel c d ∧ FrameRelL cs ds2)

end

mutual

theorem FrameRel_refl : ∀ e : Elem, FrameRel e e
  | .mk t a x cs => ⟨rfl, Or.inl rfl, Or.inl rfl, FrameRelL_refl cs⟩

theorem FrameRelL_refl : ∀ cs : List Elem, FrameRelL cs cs
  | [] => rfl
  | c :: cs => Or.inr ⟨c, cs, rfl, FrameRel_refl c, FrameRelL_refl cs⟩

end

theorem renamedPair_no_chain (t1 t2 t3 : String)
    (h1 : renamedPair t1 t2) (h2 : renamedPair t2 t3) : False := by
  rcases h1 with ⟨_, h⟩ | ⟨_, h⟩ | ⟨_, h⟩ | ⟨_, h⟩ | ⟨_, h⟩ <;> subst h <;>
    rcases h2 with ⟨h2a, _⟩ | ⟨h2a, _⟩ | ⟨h2a, _⟩ | ⟨h2a, _⟩ | ⟨h2a, _⟩ <;>
    exact absurd h2a (by decide)

theorem renamedPair_not_droppable (t1 t2 : String)
    (h1 : renamedPair t1 t2) (h2 : droppableTag t2 = true) : False := by
  rcases h1 with ⟨_, h⟩ | ⟨_, h⟩ | ⟨_, h⟩ | ⟨_, h⟩ | ⟨_, h⟩ <;> subst h <;>
    exact absurd h2 (by decide)

theorem tagStep_trans {t1 t2 t3 : String}
    (h1 : t2 = t1 ∨ renamedPair t1 t2) (h2 : t3 = t2 ∨ renamedPair t2 t3) :
    t3 = t1 ∨ renamedPair t1 t3 := by
  rcases h1 with h1 | h1
  · subst h1
    exact h2
  · rcases h2 with h2 | h2
    · subst h2
      exact Or.inr h1
    · exact (renamedPair_no_chain t1 t2 t3 h1 h2).elim

theorem textLike_trans {x1 x2 x3 : Option String}
    (h1 : textLike x1 x2) (h2 : textLike x2 x3) : textLike x1 x3 := by
  rcases h2 with h2 | h2
  · subst h2
    exact h1
  · exact Or.inr h2

theorem FrameRel_tagStep : ∀ {c d : Elem}, FrameRel c d →
    d.tag = c.tag ∨ renamedPair c.tag d.tag := by
  intro c d h
  cases c with
  | mk t1 a1 x1 c1 =>
    cases d with
    | mk t2 a2 x2 c2 =>
      exact h.2.1

theorem droppable_of_rel {c d : Elem} (h : FrameRel c d) (hd : droppableTag d.tag = true) :
    droppableTag c.tag = true := by
  rcases FrameRel_tagStep h with ht | ht
  · rwa [ht] at hd
  · exact (renamedPair_not_droppable _ _ ht hd).elim

mutual

theorem FrameRel_trans : ∀ a b c : Elem, FrameRel a b → FrameRel b c → FrameRel a c
  | .mk t1 a1 x1 c1, b, c => by
    intro h1 h2
    cases b with
    | mk t2 a2 x2 cs2 =>
      cases c with
      | mk t3 a3 x3 cs3 =>
        exact ⟨h2.1.trans h1.1, tagStep_trans h1.2.1 h2.2.1,
          textLike_trans h1.2.2.1 h2.2.2.1, FrameRelL_trans c1 cs2 cs3 h1.2.2.2 h2.2.2.2⟩

theorem FrameRelL_trans : ∀ as2 bs cs : List Elem,
    FrameRelL as2 bs → FrameRelL bs cs → FrameRelL as2 cs
  | [], bs, cs => by
    intro h1 h2
    simp only [FrameRelL] at h1
    subst h1
    simpa [FrameRelL] using h2
  | a :: as2, bs, cs => by
    intro h1 h2
    simp only [FrameRelL] at h1 ⊢
    rcases h1 with ⟨hd, h1⟩ | ⟨b, bs2, rfl, hab, h1⟩
    · exact Or.inl ⟨hd, FrameRelL_trans as2 bs cs h1 h2⟩
    · simp only [FrameRelL] at h2
      rcases h2 with ⟨hd, h2⟩ | ⟨c, cs2, rfl, hbc, h2⟩
      · exact Or.inl ⟨droppable_of_rel hab hd, FrameRelL_trans as2 bs2 cs h1 h2⟩
      · exact Or.inr ⟨c, cs2, rfl, FrameRel_trans a b c hab hbc, FrameRelL_trans as2 bs2 cs2 h1 h2⟩

end

/-! ## The edit pass respects the frame relation -/

theorem roundFieldText_textLike (x y : Option String)
    (h : roundFieldText x = .ok y) : textLike x y := by
  cases x with
  | none => simp [roundFieldText] at h
  | some s =>
    simp only [roundFieldText] at h
    cases hp : parsePyFloat s with
    | none =>
      rw [hp] at h
      simp only [Except.ok.injEq] at h
      exact Or.inl h.symm
    | some v =>
      rw [hp] at h
      cases v with
      | finite num den =>
        simp only [Except.ok.injEq] at h
        exact Or.inr ⟨pyRoundDec num den, h.symm⟩
      | posInf => simp at h
      | negInf => simp at h
      | nan =>
        simp only [Except.ok.injEq] at h
        exact Or.inl h.symm

theorem roundGuardedText_textLike (x y : Option String)
    (h : roundGuardedText x = .ok y) : textLike x y := by
  cases x with
  | none =>
    simp only [roundGuardedText, Except.ok.injEq] at h
    exact Or.inl h.symm
  | some s =>
    simp only [roundGuardedText] at h
    by_cases he : s = ""
    · rw [if_pos he] at h
      simp only [Except.ok.injEq] at h
      exact Or.inl h.symm
    · rw [if_neg he] at h
      cases hp : parsePyFloat s with
      | none =>
        rw [hp] at h
        simp only [Except.ok.injEq] at h
        exact Or.inl h.symm
      | some v =>
        rw [hp] at h
        cases v with
        | finite num den =>
          simp only [Except.ok.injEq] at h
          exact Or.inr ⟨pyRoundDec num den, h.symm⟩
        | posInf => simp at h
        | negInf => simp at h
        | nan =>
          simp only [Except.ok.injEq] at h
          exact Or.inl h.symm

theorem withText_rel (c : Elem) (x : Option String) (h : textLike c.text x) :
    FrameRel c (c.withText x) := by
  cases c with
  | mk t a xt cs => exact ⟨rfl, Or.inl rfl, h, FrameRelL_refl cs⟩

theorem withChildren_rel (c : Elem) (ds : List Elem) (h : FrameRelL c.children ds) :
    FrameRel c (c.withChildren ds) := by
  cases c with
  | mk t a xt cs => exact ⟨rfl, Or.inl rfl, Or.inl rfl, h⟩

theorem removeFirstTag_relL (tag : String) (htag : droppableTag tag = true) :
    ∀ cs : List Elem, FrameRelL cs (removeFirstTag tag cs)
  | [] => rfl
  | c :: cs => by
    by_cases hc : c.tag = tag
    · simp only [removeFirstTag, hc, if_true]
      exact Or.inl ⟨by rwa [hc], FrameRelL_refl cs⟩
    · simp only [removeFirstTag, hc, if_false]
      exact Or.inr ⟨c, removeFirstTag tag cs, rfl, FrameRel_refl c, removeFirstTag_relL tag htag cs⟩

theorem removeFirstChild_rel (tag : String) (htag : droppableTag tag = true) (e : Elem) :
    FrameRel e (removeFirstChild tag e) :=
  withChildren_rel e _ (removeFirstTag_relL tag htag e.children)

theorem updFirstTagL_relL (tag : String) (f : Elem → Except PyErr Elem)
    (hf : ∀ c d, c.tag = tag → f c = .ok d → FrameRel c d) :
    ∀ cs ds : List Elem, updFirstTagL tag f cs = .ok ds → FrameRelL cs ds
  | [], ds => by
    intro h
    simp only [updFirstTagL, Except.ok.injEq] at h
    subst h
    rfl
  | c :: cs, ds => by
    intro h
    simp only [updFirstTagL] at h
    by_cases hc : c.tag = tag
    · rw [if_pos hc] at h
      cases hfc : f c with
      | error e => rw [hfc] at h; cases h
      | ok c2 =>
        rw [hfc] at h
        simp only [Except.ok.injEq] at h
        subst h
        exact Or.inr ⟨c2, cs, rfl, hf c c2 hc hfc, FrameRelL_refl cs⟩
    · rw [if_neg hc] at h
      cases hcs : updFirstTagL tag f cs with
      | error e => rw [hcs] at h; cases h
      | ok cs2 =>
        rw [hcs] at h
        simp only [Except.ok.injEq] at h
        subst h
        exact Or.inr ⟨c, cs2, rfl, FrameRel_refl c, updFirstTagL_relL tag f hf cs cs2 hcs⟩

theorem updFirstChild_rel (tag : String) (f : Elem → Except PyErr Elem)
    (hf : ∀ c d, c.tag = tag → f c = .ok d → FrameRel c d)
    (e e2 : Elem) (h : updFirstChild tag f e = .ok e2) : FrameRel e e2 := by
  unfold updFirstChild at h
  cases hcs : updFirstTagL tag f e.children with
  | error err => rw [hcs] at h; cases h
  | ok cs2 =>
    rw [hcs] at h
    simp only [Except.ok.injEq] at h
    subst h
    exact withChildren_rel e cs2 (updFirstTagL_relL tag f hf e.children cs2 hcs)

theorem roundTextElem_rel (c d : Elem)
    (h : (match roundFieldText c.text with
          | .error err => (.error err : Except PyErr Elem)
          | .ok t2 => .ok (c.withText t2)) = .ok d) : FrameRel c d := by
  cases hr : roundFieldText c.text with
  | error err => rw [hr] at h; cases h
  | ok t2 =>
    rw [hr] at h
    simp only [Except.ok.injEq] at h
    subst h
    exact withText_rel c t2 (roundFieldText_textLike c.text t2 hr)

theorem roundFirstChildText_rel (tag : String) (e e2 : Elem)
    (h : roundFirstChildText tag e = .ok e2) : FrameRel e e2 := by
  unfold roundFirstChildText at h
  exact updFirstChild_rel tag _ (fun c d _ hcd => roundTextElem_rel c d hcd) e e2 h

theorem roundPath2L_relL (ta tb : String) :
    ∀ cs ds : List Elem, roundPath2L ta tb cs = .ok ds → FrameRelL cs ds
  | [], ds => by
    intro h
    simp only [roundPath2L, Except.ok.injEq] at h
    subst h
    rfl
  | c :: cs, ds => by
    intro h
    simp only [roundPath2L] at h
    by_cases hc : c.tag = ta ∧ hasChildTag tb c
    · rw [if_pos hc] at h
      cases hin : updFirstTagL tb
          (fun b =>
            match roundFieldText b.text with
            | .error err => .error err
            | .ok t2 => .ok (b.withText t2)) c.children with
      | error err => rw [hin] at h; cases h
      | ok cs2 =>
        rw [hin] at h
        simp only [Except.ok.injEq] at h
        subst h
        refine Or.inr ⟨c.withChildren cs2, cs, rfl, ?_, FrameRelL_refl cs⟩
        exact withChildren_rel c cs2
          (updFirstTagL_relL tb _ (fun b d _ hbd => roundTextElem_rel b d hbd) c.children cs2 hin)
    · rw [if_neg hc] at h
      cases hcs : roundPath2L ta tb cs with
      | error err => rw [hcs] at h; cases h
      | ok cs2 =>
        rw [hcs] at h
        simp only [Except.ok.injEq] at h
        subst h
        exact Or.inr ⟨c, cs2, rfl, FrameRel_refl c, roundPath2L_relL ta tb cs cs2 hcs⟩

theorem roundPath2Text_rel (ta tb : String) (e e2 : Elem)
    (h : roundPath2Text ta tb e = .ok e2) : FrameRel e e2 := by
  unfold roundPath2Text at h
  cases hcs : roundPath2L ta tb e.children with
  | error err => rw [hcs] at h; cases h
  | ok cs2 =>
    rw [hcs] at h
    simp only [Except.ok.injEq] at h
    subst h
    exact withChildren_rel e cs2 (roundPath2L_relL ta tb e.children cs2 hcs)

theorem renameLocal_renamedPair (t new : String)
    (h : renameLocal (localName t) = some new) : renamedPair t (qext new) := by
  unfold renameLocal at h
  by_cases h1 : localName t = "AverageCadence"
  · rw [if_pos h1] at h
    simp only [Option.some.injEq] at h
    subst h
    exact Or.inl ⟨h1, rfl⟩
  · rw [if_neg h1] at h
    by_cases h2 : localName t = "MaximumCadence"
    · rw [if_pos h2] at h
      simp only [Option.some.injEq] at h
      subst h
      exact Or.inr (Or.inl ⟨h2, rfl⟩)
    · rw [if_neg h2] at h
      by_cases h3 : localName t = "AverageWatts"
      · rw [if_pos h3] at h
        simp only [Option.some.injEq] at h
        subst h
        exact Or.inr (Or.inr (Or.inl ⟨h3, rfl⟩))
      · rw [if_neg h3] at h
        by_cases h4 : localName t = "MaximumWatts"
        · rw [if_pos h4] at h
          simp only [Option.some.injEq] at h
          subst h
          exact Or.inr (Or.inr (Or.inr (Or.inl ⟨h4, rfl⟩)))
        · rw [if_neg h4] at h
          cases h

theorem withTag_withText_rel (c : Elem) (tg : String) (x : Option String)
    (htag : renamedPair c.tag tg) (htext : textLike c.text x) :
    FrameRel c ((c.withTag tg).withText x) := by
  cases c with
  | mk t a xt cs => exact ⟨rfl, Or.inr htag, htext, FrameRelL_refl cs⟩

theorem tpxChildStep_rel (c d : Elem) (h : tpxChildStep c = .ok d) : FrameRel c d := by
  simp only [tpxChildStep] at h
  by_cases hrem : removableLapExt (localName c.tag) = true
  · rw [if_pos hrem] at h
    cases hr : roundGuardedText c.text with
    | error err => rw [hr] at h; cases h
    | ok t2 =>
      rw [hr] at h
      simp only [Except.ok.injEq] at h
      subst h
      exact withText_rel c t2 (roundGuardedText_textLike c.text t2 hr)
  · rw [Bool.not_eq_true] at hrem
    rw [hrem] at h
    simp only [Bool.false_eq_true, if_false] at h
    cases hren : renameLocal (localName c.tag) with
    | none =>
      rw [hren] at h
      cases hr : roundGuardedText c.text with
      | error err => rw [hr] at h; cases h
      | ok t2 =>
        rw [hr] at h
        simp only [Except.ok.injEq] at h
        subst h
        exact withText_rel c t2 (roundGuardedText_textLike c.text t2 hr)
    | some newLoc =>
      rw [hren] at h
      have htext : (c.withTag (qext newLoc)).text = c.text := by
        cases c
        rfl
      rw [htext] at h
      cases hr : roundGuardedText c.text with
      | error err => rw [hr] at h; cases h
      | ok t2 =>
        rw [hr] at h
        simp only [Except.ok.injEq] at h
        subst h
        exact withTag_withText_rel c (qext newLoc) t2
          (renameLocal_renamedPair c.tag newLoc hren)
          (roundGuardedText_textLike c.text t2 hr)

theorem tpxChildrenStep_relL :
    ∀ cs ds : List Elem, tpxChildrenStep cs = .ok ds → FrameRelL cs ds
  | [], ds => by
    intro h
    simp only [tpxChildrenStep, Except.ok.injEq] at h
    subst h
    rfl
  | c :: cs, ds => by
    intro h
    simp only [tpxChildrenStep] at h
    cases hc : tpxChildStep c with
    | error err => rw [hc] at h; cases h
    | ok c2 =>
      rw [hc] at h
      cases hcs : tpxChildrenStep cs with
      | error err => rw [hcs] at h; cases h
      | ok cs2 =>
        rw [hcs] at h
        simp only [Except.ok.injEq] at h
        subst h
        exact Or.inr ⟨c2, cs2, rfl, tpxChildStep_rel c c2 hc, tpxChildrenStep_relL cs cs2 hcs⟩

theorem filter_removable_relL :
    ∀ ds : List Elem, FrameRelL ds (ds.filter (fun c => ! removableLapExt (localName c.tag)))
  | [] => rfl
  | d :: ds => by
    by_cases hd : removableLapExt (localName d.tag) = true
    · have hdrop : droppableTag d.tag = true := by
        simp [droppableTag, hd]
      simp only [List.filter_cons, hd, Bool.not_true, Bool.false_eq_true, if_false]
      exact Or.inl ⟨hdrop, filter_removable_relL ds⟩
    · rw [Bool.not_eq_true] at hd
      simp only [List.filter_cons, hd, Bool.not_false, if_true]
      exact Or.inr ⟨d, _, rfl, FrameRel_refl d, filter_removable_relL ds⟩

theorem tpxLapStep_rel (tpx out : Elem) (htag : tpx.tag = qext "TPX")
    (h : tpxLapStep tpx = .ok out) : FrameRel tpx out := by
  unfold tpxLapStep at h
  cases hcs : tpxChildrenStep tpx.children with
  | error err => rw [hcs] at h; cases h
  | ok cs2 =>
    rw [hcs] at h
    simp only [Except.ok.injEq] at h
    subst h
    cases tpx with
    | mk t a xt cs =>
      simp only [Elem.tag] at htag
      refine ⟨rfl, Or.inr (Or.inr (Or.inr (Or.inr (Or.inr ⟨htag, rfl⟩)))), Or.inl rfl, ?_⟩
      exact FrameRelL_trans cs cs2 _ (tpxChildrenStep_relL cs cs2 hcs) (filter_removable_relL cs2)

theorem lapProcess_rel (lap out : Elem) (h : lapProcess lap = .ok out) : FrameRel lap out := by
  unfold lapProcess at h
  cases h1 : roundFirstChildText (qtcx "Calories") (removeFirstChild (qtcx "Cadence") lap) with
  | error err => rw [h1] at h; cases h
  | ok lap2 =>
    rw [h1] at h
    dsimp only at h
    cases h2 : roundPath2Text (qtcx "AverageHeartRateBpm") (qtcx "Value") lap2 with
    | error err => rw [h2] at h; cases h
    | ok lap3 =>
      rw [h2] at h
      dsimp only at h
      cases h3 : roundPath2Text (qtcx "MaximumHeartRateBpm") (qtcx "Value") lap3 with
      | error err => rw [h3] at h; cases h
      | ok lap4 =>
        rw [h3] at h
        dsimp only at h
        have r0 : FrameRel lap (removeFirstChild (qtcx "Cadence") lap) :=
          removeFirstChild_rel _ (by decide) lap
        have r1 := roundFirstChildText_rel _ _ _ h1
        have r2 := roundPath2Text_rel _ _ _ _ h2
        have r3 := roundPath2Text_rel _ _ _ _ h3
        have r4 : FrameRel lap4 out := by
          refine updFirstChild_rel (qtcx "Extensions") _ ?_ lap4 out h
          intro c d _ hcd
          refine updFirstChild_rel (qext "TPX") _ ?_ c d hcd
          intro c2 d2 htag2 hcd2
          exact tpxLapStep_rel c2 d2 htag2 hcd2
        exact FrameRel_trans _ _ _ r0 (FrameRel_trans _ _ _ r1
          (FrameRel_trans _ _ _ r2 (FrameRel_trans _ _ _ r3 r4)))

theorem tpProcess_rel (tp out : Elem) (h : tpProcess tp = .ok out) : FrameRel tp out := by
  unfold tpProcess at h
  cases h1 : roundPath2Text (qtcx "HeartRateBpm") (qtcx "Value") tp with
  | error err => rw [h1] at h; cases h
  | ok tp1 =>
    rw [h1] at h
    dsimp only at h
    cases h2 : roundFirstChildText (qtcx "Cadence") tp1 with
    | error err => rw [h2] at h; cases h
    | ok tp2 =>
      rw [h2] at h
      dsimp only at h
      have r1 := roundPath2Text_rel _ _ _ _ h1
      have r2 := roundFirstChildText_rel _ _ _ h2
      have r3 : FrameRel tp2 out := by
        refine updFirstChild_rel (qtcx "Extensions") _ ?_ tp2 out h
        intro c d _ hcd
        refine updFirstChild_rel (qext "TPX") _ ?_ c d hcd
        intro c2 d2 _ hcd2
        unfold tpExtTpxStep at hcd2
        have ra : FrameRel c2 (removeFirstChild (qext "Resistance") c2) :=
          removeFirstChild_rel _ (by decide) c2
        exact FrameRel_trans _ _ _ ra (roundFirstChildText_rel _ _ _ hcd2)
      exact FrameRel_trans _ _ _ r1 (FrameRel_trans _ _ _ r2 r3)

mutual

theorem updFirstDescE_rel (p : String) (f : Elem → Elem) (hf : ∀ a, FrameRel a (f a)) :
    ∀ e : Elem, FrameRel e (updFirstDescE p f e).1
  | .mk t a x cs => by
    by_cases ht : t = p
    · simp only [updFirstDescE, ht, if_true]
      exact hf _
    · simp only [updFirstDescE, ht, if_false]
      exact ⟨rfl, Or.inl rfl, Or.inl rfl, updFirstDescL_rel p f hf cs⟩

theorem updFirstDescL_rel (p : String) (f : Elem → Elem) (hf : ∀ a, FrameRel a (f a)) :
    ∀ cs : List Elem, FrameRelL cs (updFirstDescL p f cs).1
  | [] => rfl
  | c :: cs => by
    simp only [updFirstDescL]
    by_cases hc : (updFirstDescE p f c).2 = true
    · simp only [hc, if_true]
      exact Or.inr ⟨_, cs, rfl, updFirstDescE_rel p f hf c, FrameRelL_refl cs⟩
    · rw [Bool.not_eq_true] at hc
      simp only [hc, Bool.false_eq_true, if_false]
      exact Or.inr ⟨_, _, rfl, updFirstDescE_rel p f hf c, updFirstDescL_rel p f hf cs⟩

end

theorem removeCreatorStep_rel (t : Elem) : FrameRel t (removeCreatorStep t) := by
  cases t with
  | mk tg a x cs =>
    simp only [removeCreatorStep, updFirstDescendant]
    refine ⟨rfl, Or.inl rfl, Or.inl rfl, ?_⟩
    exact updFirstDescL_rel _ _ (fun e => removeFirstChild_rel _ (by decide) e) cs

mutual

theorem mapTaggedE_rel (p : String) (f : Elem → Except PyErr Elem)
    (hf : ∀ e e2, e.tag = p → f e = .ok e2 → FrameRel e e2) :
    ∀ e e2 : Elem, mapTaggedE p f e = .ok e2 → FrameRel e e2
  | .mk t a x cs, e2 => by
    intro h
    simp only [mapTaggedE] at h
    cases hcs : mapTaggedL p f cs with
    | error err => rw [hcs] at h; cases h
    | ok cs2 =>
      rw [hcs] at h
      dsimp only at h
      have rkids : FrameRel (.mk t a x cs) (.mk t a x cs2) :=
        ⟨rfl, Or.inl rfl, Or.inl rfl, mapTaggedL_rel p f hf cs cs2 hcs⟩
      by_cases ht : t = p
      · rw [if_pos ht] at h
        exact FrameRel_trans _ _ _ rkids (hf _ e2 ht h)
      · rw [if_neg ht] at h
        simp only [Except.ok.injEq] at h
        subst h
        exact rkids

theorem mapTaggedL_rel (p : String) (f : Elem → Except PyErr Elem)
    (hf : ∀ e e2, e.tag = p → f e = .ok e2 → FrameRel e e2) :
    ∀ cs ds : List Elem, mapTaggedL p f cs = .ok ds → FrameRelL cs ds
  | [], ds => by
    intro h
    simp only [mapTaggedL, Except.ok.injEq] at h
    subst h
    rfl
  | c :: cs, ds => by
    intro h
    simp only [mapTaggedL] at h
    cases hc : mapTaggedE p f c with
    | error err => rw [hc] at h; cases h
    | ok c2 =>
      rw [hc] at h
      cases hcs : mapTaggedL p f cs with
      | error err => rw [hcs] at h; cases h
      | ok cs2 =>
        rw [hcs] at h
        simp only [Except.ok.injEq] at h
        subst h
        exact Or.inr ⟨c2, cs2, rfl, mapTaggedE_rel p f hf c c2 hc,
          mapTaggedL_rel p f hf cs cs2 hcs⟩

end

theorem mapTaggedDesc_rel (p : String) (f : Elem → Except PyErr Elem)
    (hf : ∀ e e2, e.tag = p → f e = .ok e2 → FrameRel e e2)
    (u u2 : Elem) (h : mapTaggedDesc p f u = .ok u2) : FrameRel u u2 := by
  cases u with
  | mk t a x cs =>
    simp only [mapTaggedDesc] at h
    cases hcs : mapTaggedL p f cs with
    | error err => rw [hcs] at h; cases h
    | ok cs2 =>
      rw [hcs] at h
      simp only [Except.ok.injEq] at h
      subst h
      exact ⟨rfl, Or.inl rfl, Or.inl rfl, mapTaggedL_rel p f hf cs cs2 hcs⟩

/-- The master frame theorem: a successful edit pass relates input and
output by the frame relation. -/
theorem cleanTree_FrameRel (t u : Elem) (h : cleanTree t = .ok u) : FrameRel t u := by
  unfold cleanTree at h
  cases h2 : mapTaggedDesc (qtcx "Lap") lapProcess (removeCreatorStep t) with
  | error err => rw [h2] at h; cases h
  | ok r2 =>
    rw [h2] at h
    dsimp only at h
    refine FrameRel_trans t (removeCreatorStep t) u (removeCreatorStep_rel t)
      (FrameRel_trans (removeCreatorStep t) r2 u ?_ ?_)
    · exact mapTaggedDesc_rel _ _ (fun e e2 _ he => lapProcess_rel e e2 he) _ _ h2
    · exact mapTaggedDesc_rel _ _ (fun e e2 _ he => tpProcess_rel e e2 he) _ _ h

/-! ## Creator removal: what the pass guarantees about `Creator` -/

mutual

/-- No element carrying the `Activity` tag (the element itself included)
has a direct `Creator` child. -/
def noActCrE : Elem → Bool
  | .mk t a x cs =>
    (!(t == qtcx "Activity") || !(hasChildTag (qtcx "Creator") (.mk t a x cs))) && noActCrL cs

def noActCrL : List Elem → Bool
  | [] => true
  | c :: cs => noActCrE c && noActCrL cs

end

/-- Number of direct `Creator` children. -/
def creatorCount (cs : List Elem) : Nat := cs.countP (fun c => c.tag = qtcx "Creator")

mutual

/-- Every `Activity` element in the subtree has at most one direct
`Creator` child. -/
def actOkE : Elem → Bool
  | .mk t _ _ cs => (!(t == qtcx "Activity") || creatorCount cs ≤ 1) && actOkL cs

def actOkL : List Elem → Bool
  | [] => true
  | c :: cs => actOkE c && actOkL cs

end

mutual

theorem countTagE_zero_noActCr (p : String) (hp : p = qtcx "Activity") :
    ∀ e : Elem, countTagE p e = 0 → noActCrE e = true
  | .mk t a x cs => by
    intro h
    simp only [countTagE, Nat.add_eq_zero] at h
    obtain ⟨h1, h2⟩ := h
    have ht : t ≠ p := by
      intro hh
      simp [hh] at h1
    simp only [noActCrE, Bool.and_eq_true, Bool.or_eq_true, Bool.not_eq_true', beq_eq_false_iff_ne]
    exact ⟨Or.inl (by rwa [hp] at ht), countTagL_zero_noActCr p hp cs h2⟩

theorem countTagL_zero_noActCr (p : String) (hp : p = qtcx "Activity") :
    ∀ cs : List Elem, countTagL p cs = 0 → noActCrL cs = true
  | [] => by intro _; rfl
  | c :: cs => by
    intro h
    simp only [countTagL, Nat.add_eq_zero] at h
    simp only [noActCrL, Bool.and_eq_true]
    exact ⟨countTagE_zero_noActCr p hp c h.1, countTagL_zero_noActCr p hp cs h.2⟩

end

theorem countTagL_removeFirstTag_le (p tag : String) :
    ∀ cs : List Elem, countTagL p (removeFirstTag tag cs) ≤ countTagL p cs
  | [] => Nat.le_refl _
  | c :: cs => by
    by_cases hc : c.tag = tag
    · simp only [removeFirstTag, hc, if_true, countTagL]
      exact Nat.le_add_left _ _
    · simp only [removeFirstTag, hc, if_false, countTagL]
      exact Nat.add_le_add_left (countTagL_removeFirstTag_le p tag cs) _

theorem removeFirstTag_creator_clears (cs : List Elem)
    (h : creatorCount cs ≤ 1) :
    (removeFirstTag (qtcx "Creator") cs).any (fun c => c.tag = qtcx "Creator") = false := by
  induction cs with
  | nil => rfl
  | cons c cs ih =>
    by_cases hc : c.tag = qtcx "Creator"
    · simp only [removeFirstTag, hc, if_true]
      have hcc : creatorCount (c :: cs) = creatorCount cs + 1 := by
        simp [creatorCount, List.countP_cons, hc]
      rw [List.any_eq_false]
      intro x hx
      simp only [decide_eq_true_eq]
      intro hx2
      have hpos : 0 < creatorCount cs := by
        simp only [creatorCount]
        exact List.countP_pos_iff.mpr ⟨x, hx, by simpa using hx2⟩
      omega
    · simp only [removeFirstTag, hc, if_false, List.any_cons]
      have hcc : creatorCount (c :: cs) = creatorCount cs := by
        simp [creatorCount, List.countP_cons, hc]
      have := ih (by omega)
      simp [hc, this]

mutual

theorem updFirstDescE_snd_true_count (p : String) (f : Elem → Elem) :
    ∀ e : Elem, (updFirstDescE p f e).2 = true → 1 ≤ countTagE p e
  | .mk t a x cs => by
    intro h
    by_cases ht : t = p
    · simp [countTagE, ht]
    · simp only [updFirstDescE, ht, if_false] at h
      have := updFirstDescL_snd_true_count p f cs h
      simp only [countTagE, ht, if_false, Nat.zero_add]
      exact this

theorem updFirstDescL_snd_true_count (p : String) (f : Elem → Elem) :
    ∀ cs : List Elem, (updFirstDescL p f cs).2 = true → 1 ≤ countTagL p cs
  | [] => by intro h; cases h
  | c :: cs => by
    intro h
    simp only [updFirstDescL] at h
    by_cases hc : (updFirstDescE p f c).2 = true
    · have := updFirstDescE_snd_true_count p f c hc
      simp only [countTagL]
      omega
    · rw [Bool.not_eq_true] at hc
      simp only [hc, Bool.false_eq_true, if_false] at h
      have := updFirstDescL_snd_true_count p f cs h
      simp only [countTagL]
      omega

end

mutual

theorem phase1E :
    ∀ e : Elem, countTagE (qtcx "Activity") e ≤ 1 → actOkE e = true →
      noActCrE (updFirstDescE (qtcx "Activity") (removeFirstChild (qtcx "Creator")) e).1 = true
  | .mk t a x cs => by
    intro hcount hok
    simp only [actOkE, Bool.and_eq_true] at hok
    obtain ⟨hself, hkids⟩ := hok
    by_cases ht : t = qtcx "Activity"
    · subst ht
      simp only [updFirstDescE, if_true]
      have hcr : creatorCount cs ≤ 1 := by
        rcases Bool.or_eq_true _ _ |>.mp hself with h1 | h1
        · rw [Bool.not_eq_true', beq_eq_false_iff_ne] at h1
          exact absurd rfl h1
        · exact Nat.le_of_ble_eq_true (by simpa using h1)
      have hz : countTagL (qtcx "Activity") cs = 0 := by
        simp [countTagE] at hcount
        omega
      simp only [removeFirstChild, Elem.children, Elem.withChildren, noActCrE,
        Bool.and_eq_true, Bool.or_eq_true, Bool.not_eq_true']
      constructor
      · right
        simp only [hasChildTag, Elem.children]
        exact removeFirstTag_creator_clears cs hcr
      · exact countTagL_zero_noActCr _ rfl _
          (Nat.le_zero.mp (hz ▸ countTagL_removeFirstTag_le _ _ cs))
    · simp only [updFirstDescE, ht, if_false]
      have hz : countTagL (qtcx "Activity") cs ≤ 1 := by
        simp only [countTagE, ht, if_false, Nat.zero_add] at hcount
        exact hcount
      simp only [noActCrE, Bool.and_eq_true, Bool.or_eq_true, Bool.not_eq_true',
        beq_eq_false_iff_ne]
      exact ⟨Or.inl ht, phase1L cs hz hkids⟩

theorem phase1L :
    ∀ cs : List Elem, countTagL (qtcx "Activity") cs ≤ 1 → actOkL cs = true →
      noActCrL (updFirstDescL (qtcx "Activity") (removeFirstChild (qtcx "Creator")) cs).1 = true
  | [] => by intro _ _; rfl
  | c :: cs => by
    intro hcount hok
    simp only [actOkL, Bool.and_eq_true] at hok
    obtain ⟨hc1, hcs1⟩ := hok
    simp only [countTagL] at hcount
    have hce : countTagE (qtcx "Activity") c ≤ 1 := by omega
    have hcl : countTagL (qtcx "Activity") cs ≤ 1 := by omega
    simp only [updFirstDescL]
    by_cases hflag : (updFirstDescE (qtcx "Activity") (removeFirstChild (qtcx "Creator")) c).2 = true
    · have h1 := updFirstDescE_snd_true_count _ _ c hflag
      have hz : countTagL (qtcx "Activity") cs = 0 := by omega
      simp only [hflag, if_true, noActCrL, Bool.and_eq_true]
      exact ⟨phase1E c hce hc1, countTagL_zero_noActCr _ rfl cs hz⟩
    · rw [Bool.not_eq_true] at hflag
      simp only [hflag, Bool.false_eq_true, if_false, noActCrL, Bool.and_eq_true]
      exact ⟨phase1E c hce hc1, phase1L cs hcl hcs1⟩

end

theorem renamedPair_ne_creator (t1 t2 : String) (h : renamedPair t1 t2) :
    t2 ≠ qtcx "Creator" := by
  rcases h with ⟨_, h⟩ | ⟨_, h⟩ | ⟨_, h⟩ | ⟨_, h⟩ | ⟨_, h⟩ <;> subst h <;> decide

theorem renamedPair_ne_activity (t1 t2 : String) (h : renamedPair t1 t2) :
    t2 ≠ qtcx "Activity" := by
  rcases h with ⟨_, h⟩ | ⟨_, h⟩ | ⟨_, h⟩ | ⟨_, h⟩ | ⟨_, h⟩ <;> subst h <;> decide

theorem rel_tag_eq_of_target {c d : Elem} (h : FrameRel c d) (T : String)
    (hT : ∀ t1, ¬ renamedPair t1 T) (htag : d.tag = T) : c.tag = T := by
  rcases FrameRel_tagStep h with ht | ht
  · rw [← ht, htag]
  · rw [htag] at ht
    exact absurd ht (hT c.tag)

theorem no_creator_of_relL :
    ∀ as2 bs : List Elem, FrameRelL as2 bs →
      as2.any (fun c => c.tag = qtcx "Creator") = false →
      bs.any (fun c => c.tag = qtcx "Creator") = false
  | [], bs => by
    intro hrel h
    simp only [FrameRelL] at hrel
    subst hrel
    rfl
  | a :: as2, bs => by
    intro hrel h
    simp only [List.any_cons, Bool.or_eq_false_iff, decide_eq_false_iff_not] at h
    simp only [FrameRelL] at hrel
    rcases hrel with ⟨_, hrel⟩ | ⟨d, ds2, rfl, had, hrel⟩
    · exact no_creator_of_relL as2 bs hrel h.2
    · simp only [List.any_cons, Bool.or_eq_false_iff, decide_eq_false_iff_not]
      refine ⟨?_, no_creator_of_relL as2 ds2 hrel h.2⟩
      intro hd
      exact h.1 (rel_tag_eq_of_target had _ (fun t1 ht => renamedPair_ne_creator t1 _ ht rfl) hd)

mutual

theorem noActCr_of_relE :
    ∀ a b : Elem, FrameRel a b → noActCrE a = true → noActCrE b = true
  | .mk t1 a1 x1 c1, .mk t2 a2 x2 c2 => by
    intro hrel h
    obtain ⟨hattr, htag, htext, hkids⟩ := hrel
    simp only [noActCrE, Bool.and_eq_true, Bool.or_eq_true, Bool.not_eq_true',
      beq_eq_false_iff_ne] at h ⊢
    obtain ⟨hself, hk⟩ := h
    refine ⟨?_, noActCr_of_relL c1 c2 hkids hk⟩
    by_cases ht2 : t2 = qtcx "Activity"
    · right
      have ht1 : t1 = qtcx "Activity" := by
        rcases htag with he | he
        · rw [← he, ht2]
        · exact absurd (ht2 ▸ he) (fun hh => renamedPair_ne_activity t1 t2 he ht2)
      rcases hself with h1 | h1
      · exact absurd ht1 h1
      · simp only [hasChildTag, Elem.children] at h1 ⊢
        exact no_creator_of_relL c1 c2 hkids h1
    · exact Or.inl ht2

theorem noActCr_of_relL :
    ∀ as2 bs : List Elem, FrameRelL as2 bs → noActCrL as2 = true → noActCrL bs = true
  | [], bs => by
    intro hrel h
    simp only [FrameRelL] at hrel
    subst hrel
    rfl
  | a :: as2, bs => by
    intro hrel h
    simp only [noActCrL, Bool.and_eq_true] at h
    simp only [FrameRelL] at hrel
    rcases hrel with ⟨_, hrel⟩ | ⟨d, ds2, rfl, had, hrel⟩
    · exact noActCr_of_relL as2 bs hrel h.2
    · simp only [noActCrL, Bool.and_eq_true]
      exact ⟨noActCr_of_relE a d had h.1, noActCr_of_relL as2 ds2 hrel h.2⟩

end

/-! ## Tracking single fields through the per-element edits -/

theorem Elem.tag_withChildren (e : Elem) (cs : List Elem) :
    (e.withChildren cs).tag = e.tag := by
  cases e
  rfl

theorem Elem.children_withChildren (e : Elem) (cs : List Elem) :
    (e.withChildren cs).children = cs := by
  cases e
  rfl

theorem Elem.tag_withText (e : Elem) (x : Option String) :
    (e.withText x).tag = e.tag := by
  cases e
  rfl

theorem firstTag_removeFirstTag_ne (t tag : String) (hne : t ≠ tag) :
    ∀ cs : List Elem, firstTag t (removeFirstTag tag cs) = firstTag t cs
  | [] => rfl
  | c :: cs => by
    by_cases hc : c.tag = tag
    · simp only [removeFirstTag, hc, if_true]
      have : ¬ c.tag = t := by
        rw [hc]
        exact fun hh => hne hh.symm
      simp [firstTag, this]
    · simp only [removeFirstTag, hc, if_false]
      by_cases hct : c.tag = t
      · simp [firstTag, hct]
      · simp [firstTag, hct, firstTag_removeFirstTag_ne t tag hne cs]

theorem updFirstTagL_round_firstTag (tag : String) (c : Elem) (x : Option String)
    (hr : roundFieldText c.text = .ok x) :
    ∀ cs cs2 : List Elem, firstTag tag cs = some c →
      updFirstTagL tag
        (fun b =>
          match roundFieldText b.text with
          | .error err => .error err
          | .ok t2 => .ok (b.withText t2)) cs = .ok cs2 →
      firstTag tag cs2 = some (c.withText x)
  | [], cs2 => by
    intro hf _
    simp [firstTag] at hf
  | d :: cs, cs2 => by
    intro hf h
    simp only [updFirstTagL] at h
    by_cases hd : d.tag = tag
    · simp only [firstTag, hd, if_true, Option.some.injEq] at hf
      subst hf
      rw [if_pos hd, hr] at h
      dsimp only at h
      simp only [Except.ok.injEq] at h
      subst h
      have : (d.withText x).tag = tag := by rw [Elem.tag_withText, hd]
      simp [firstTag, this]
    · simp only [firstTag, hd, if_false] at hf
      rw [if_neg hd] at h
      cases hcs : updFirstTagL tag
          (fun b =>
            match roundFieldText b.text with
            | .error err => .error err
            | .ok t2 => .ok (b.withText t2)) cs with
      | error err => rw [hcs] at h; cases h
      | ok cs3 =>
        rw [hcs] at h
        simp only [Except.ok.injEq] at h
        subst h
        simp only [firstTag, hd, if_false]
        exact updFirstTagL_round_firstTag tag c x hr cs cs3 hf hcs

theorem updFirstTagL_firstTag_other (tag t : String) (f : Elem → Except PyErr Elem)
    (hne : t ≠ tag) (hpres : ∀ c d, f c = .ok d → d.tag = c.tag) :
    ∀ cs cs2 : List Elem, updFirstTagL tag f cs = .ok cs2 →
      firstTag t cs2 = firstTag t cs
  | [], cs2 => by
    intro h
    simp only [updFirstTagL, Except.ok.injEq] at h
    subst h
    rfl
  | c :: cs, cs2 => by
    intro h
    simp only [updFirstTagL] at h
    by_cases hc : c.tag = tag
    · rw [if_pos hc] at h
      cases hfc : f c with
      | error err => rw [hfc] at h; cases h
      | ok d =>
        rw [hfc] at h
        simp only [Except.ok.injEq] at h
        subst h
        have hdt : d.tag = c.tag := hpres c d hfc
        have hnt : ¬ c.tag = t := by
          rw [hc]
          exact fun hh => hne hh.symm
        simp [firstTag, hdt, hnt]
    · rw [if_neg hc] at h
      cases hcs : updFirstTagL tag f cs with
      | error err => rw [hcs] at h; cases h
      | ok cs3 =>
        rw [hcs] at h
        simp only [Except.ok.injEq] at h
        subst h
        by_cases hct : c.tag = t
        · simp [firstTag, hct]
        · simp [firstTag, hct, updFirstTagL_firstTag_other tag t f hne hpres cs cs3 hcs]

theorem roundPath2L_firstTag_other (ta tb t : String) (hne : t ≠ ta) :
    ∀ cs cs2 : List Elem, roundPath2L ta tb cs = .ok cs2 →
      firstTag t cs2 = firstTag t cs
  | [], cs2 => by
    intro h
    simp only [roundPath2L, Except.ok.injEq] at h
    subst h
    rfl
  | c :: cs, cs2 => by
    intro h
    simp only [roundPath2L] at h
    by_cases hc : c.tag = ta ∧ hasChildTag tb c
    · rw [if_pos hc] at h
      cases hin : updFirstTagL tb
          (fun b =>
            match roundFieldText b.text with
            | .error err => .error err
            | .ok t2 => .ok (b.withText t2)) c.children with
      | error err => rw [hin] at h; cases h
      | ok csb =>
        rw [hin] at h
        simp only [Except.ok.injEq] at h
        subst h
        have hnt : ¬ c.tag = t := by
          rw [hc.1]
          exact fun hh => hne hh.symm
        have hnt2 : ¬ (c.withChildren csb).tag = t := by
          rw [Elem.tag_withChildren]
          exact hnt
        simp [firstTag, hnt, hnt2]
    · rw [if_neg hc] at h
      cases hcs : roundPath2L ta tb cs with
      | error err => rw [hcs] at h; cases h
      | ok cs3 =>
        rw [hcs] at h
        simp only [Except.ok.injEq] at h
        subst h
        by_cases hct : c.tag = t
        · simp [firstTag, hct]
        · simp [firstTag, hct, roundPath2L_firstTag_other ta tb t hne cs cs3 hcs]

theorem removeFirstTag_countP_clears (tag : String) :
    ∀ cs : List Elem, cs.countP (fun c => c.tag = tag) ≤ 1 →
      (removeFirstTag tag cs).countP (fun c => c.tag = tag) = 0
  | [] => by intro _; rfl
  | c :: cs => by
    intro h
    by_cases hc : c.tag = tag
    · simp only [removeFirstTag, hc, if_true]
      simp only [List.countP_cons, hc, decide_True, if_pos] at h
      omega
    · simp only [removeFirstTag, hc, if_false, List.countP_cons]
      simp only [List.countP_cons, hc, decide_False, if_neg] at h
      have := removeFirstTag_countP_clears tag cs (by simpa using h)
      simp [hc, this]

theorem updFirstTagL_countP (tag T : String) (f : Elem → Except PyErr Elem)
    (hpres : ∀ c d, f c = .ok d → d.tag = c.tag) :
    ∀ cs cs2 : List Elem, updFirstTagL tag f cs = .ok cs2 →
      cs2.countP (fun c => c.tag = T) = cs.countP (fun c => c.tag = T)
  | [], cs2 => by
    intro h
    simp only [updFirstTagL, Except.ok.injEq] at h
    subst h
    rfl
  | c :: cs, cs2 => by
    intro h
    simp only [updFirstTagL] at h
    by_cases hc : c.tag = tag
    · rw [if_pos hc] at h
      cases hfc : f c with
      | error err => rw [hfc] at h; cases h
      | ok d =>
        rw [hfc] at h
        simp only [Except.ok.injEq] at h
        subst h
        simp [List.countP_cons, hpres c d hfc]
    · rw [if_neg hc] at h
      cases hcs : updFirstTagL tag f cs with
      | error err => rw [hcs] at h; cases h
      | ok cs3 =>
        rw [hcs] at h
        simp only [Except.ok.injEq] at h
        subst h
        simp [List.countP_cons, updFirstTagL_countP tag T f hpres cs cs3 hcs]

theorem roundTextElem_tag (c d : Elem)
    (h : (match roundFieldText c.text with
          | .error err => (.error err : Except PyErr Elem)
          | .ok t2 => .ok (c.withText t2)) = .ok d) : d.tag = c.tag := by
  cases hr : roundFieldText c.text with
  | error err => rw [hr] at h; cases h
  | ok t2 =>
    rw [hr] at h
    simp only [Except.ok.injEq] at h
    subst h
    exact Elem.tag_withText c t2

/-! ## The lap-extension child loop, element by element -/

theorem tpxChildrenStep_mem :
    ∀ cs ds : List Elem, tpxChildrenStep cs = .ok ds →
      ∀ c ∈ cs, ∃ d ∈ ds, tpxChildStep c = .ok d
  | [], ds => by
    intro _ c hc
    simp at hc
  | c0 :: cs, ds => by
    intro h c hc
    simp only [tpxChildrenStep] at h
    cases hc0 : tpxChildStep c0 with
    | error err => rw [hc0] at h; cases h
    | ok d0 =>
      rw [hc0] at h
      cases hcs : tpxChildrenStep cs with
      | error err => rw [hcs] at h; cases h
      | ok ds0 =>
        rw [hcs] at h
        simp only [Except.ok.injEq] at h
        subst h
        rcases List.mem_cons.mp hc with rfl | hmem
        · exact ⟨d0, List.mem_cons_self d0 ds0, hc0⟩
        · obtain ⟨d, hd, hstep⟩ := tpxChildrenStep_mem cs ds0 hcs c hmem
          exact ⟨d, List.mem_cons_of_mem d0 hd, hstep⟩

theorem tpxChildrenStep_mem_rev :
    ∀ cs ds : List Elem, tpxChildrenStep cs = .ok ds →
      ∀ d ∈ ds, ∃ c ∈ cs, tpxChildStep c = .ok d
  | [], ds => by
    intro h d hd
    simp only [tpxChildrenStep, Except.ok.injEq] at h
    subst h
    simp at hd
  | c0 :: cs, ds => by
    intro h d hd
    simp only [tpxChildrenStep] at h
    cases hc0 : tpxChildStep c0 with
    | error err => rw [hc0] at h; cases h
    | ok d0 =>
      rw [hc0] at h
      cases hcs : tpxChildrenStep cs with
      | error err => rw [hcs] at h; cases h
      | ok ds0 =>
        rw [hcs] at h
        simp only [Except.ok.injEq] at h
        subst h
        rcases List.mem_cons.mp hd with rfl | hmem
        · exact ⟨c0, List.mem_cons_self c0 cs, hc0⟩
        · obtain ⟨c, hc, hstep⟩ := tpxChildrenStep_mem_rev cs ds0 hcs d hmem
          exact ⟨c, List.mem_cons_of_mem c0 hc, hstep⟩

theorem renameLocal_some_cases (loc new : String) (h : renameLocal loc = some new) :
    (loc = "AverageCadence" ∧ new = "AvgCadence") ∨
    (loc = "MaximumCadence" ∧ new = "MaxCadence") ∨
    (loc = "AverageWatts" ∧ new = "AvgWatts") ∨
    (loc = "MaximumWatts" ∧ new = "MaxWatts") := by
  unfold renameLocal at h
  by_cases h1 : loc = "AverageCadence"
  · rw [if_pos h1] at h
    simp only [Option.some.injEq] at h
    exact Or.inl ⟨h1, h.symm⟩
  · rw [if_neg h1] at h
    by_cases h2 : loc = "MaximumCadence"
    · rw [if_pos h2] at h
      simp only [Option.some.injEq] at h
      exact Or.inr (Or.inl ⟨h2, h.symm⟩)
    · rw [if_neg h2] at h
      by_cases h3 : loc = "AverageWatts"
      · rw [if_pos h3] at h
        simp only [Option.some.injEq] at h
        exact Or.inr (Or.inr (Or.inl ⟨h3, h.symm⟩))
      · rw [if_neg h3] at h
        by_cases h4 : loc = "MaximumWatts"
        · rw [if_pos h4] at h
          simp only [Option.some.injEq] at h
          exact Or.inr (Or.inr (Or.inr ⟨h4, h.symm⟩))
        · rw [if_neg h4] at h
          cases h

theorem tpxChildStep_renameLocal_none (c d : Elem)
    (h : tpxChildStep c = .ok d)
    (hrem : removableLapExt (localName d.tag) = false) :
    renameLocal (localName d.tag) = none := by
  simp only [tpxChildStep] at h
  by_cases hr : removableLapExt (localName c.tag) = true
  · rw [if_pos hr] at h
    cases hg : roundGuardedText c.text with
    | error err => rw [hg] at h; cases h
    | ok t2 =>
      rw [hg] at h
      simp only [Except.ok.injEq] at h
      subst h
      rw [Elem.tag_withText] at hrem
      rw [hr] at hrem
      cases hrem
  · rw [Bool.not_eq_true] at hr
    rw [hr] at h
    simp only [Bool.false_eq_true, if_false] at h
    cases hren : renameLocal (localName c.tag) with
    | none =>
      rw [hren] at h
      cases hg : roundGuardedText c.text with
      | error err => rw [hg] at h; cases h
      | ok t2 =>
        rw [hg] at h
        simp only [Except.ok.injEq] at h
        subst h
        rw [Elem.tag_withText]
        exact hren
    | some new =>
      rw [hren] at h
      cases hg : roundGuardedText (c.withTag (qext new)).text with
      | error err => rw [hg] at h; cases h
      | ok t2 =>
        rw [hg] at h
        simp only [Except.ok.injEq] at h
        subst h
        rw [Elem.tag_withText]
        have ht : (c.withTag (qext new)).tag = qext new := by
          cases c
          rfl
        rw [ht]
        rcases renameLocal_some_cases _ _ hren with ⟨_, rfl⟩ | ⟨_, rfl⟩ | ⟨_, rfl⟩ | ⟨_, rfl⟩ <;>
          decide

theorem tpxChildStep_rename (c : Elem) (new : String) (x : Option String)
    (hrem : removableLapExt (localName c.tag) = false)
    (hren : renameLocal (localName c.tag) = some new)
    (hr : roundGuardedText c.text = .ok x) :
    tpxChildStep c = .ok (Elem.mk (qext new) c.attrs x c.children) := by
  simp only [tpxChildStep, hrem, Bool.false_eq_true, if_false, hren]
  have ht : (c.withTag (qext new)).text = c.text := by
    cases c
    rfl
  rw [ht, hr]
  cases c
  rfl

/-! ## Rounding an exact half: the even neighbour -/

theorem floatOfParts_den_pos (neg : Bool) (M k : Nat) (e : Int) (num : Int) (den : Nat)
    (h : floatOfParts neg M k e = .finite num den) : 0 < den := by
  simp only [floatOfParts] at h
  split at h
  · split at h
    · cases neg <;> simp at h
    · simp only [FloatVal.finite.injEq] at h
      omega
  · split at h
    · cases neg <;> simp at h
    · simp only [FloatVal.finite.injEq] at h
      obtain ⟨_, hden⟩ := h
      rw [← hden]
      positivity

theorem parsePyFloat_den_pos (s : String) (num : Int) (den : Nat)
    (h : parsePyFloat s = some (.finite num den)) : 0 < den := by
  simp only [parsePyFloat] at h
  split at h
  · split at h <;> simp at h
  · split at h
    · simp at h
    · split at h
      · cases h
      · simp only [Option.some.injEq] at h
        exact floatOfParts_den_pos _ _ _ _ _ _ h

theorem pyRoundDec_half (num : Int) (den : Nat) (n : Int)
    (hden : 0 < den) (hh : 2 * num = (den : Int) * (2 * n + 1)) :
    pyRoundDec num den = if n % 2 = 0 then n else n + 1 := by
  have hdz : (0 : Int) < (den : Int) := by exact_mod_cast hden
  obtain ⟨m, hm⟩ : ∃ m : Int, (den : Int) = 2 * m := by
    rcases Int.even_or_odd (den : Int) with he | ho
    · obtain ⟨r, hr⟩ := he
      exact ⟨r, by omega⟩
    · exfalso
      have hodd : Odd ((den : Int) * (2 * n + 1)) := ho.mul ⟨n, by ring⟩
      obtain ⟨j, hj⟩ := hodd
      rw [hj] at hh
      omega
  have hmpos : 0 < m := by omega
  have hnum : num = m + n * (den : Int) := by
    have h2 : 2 * num = 2 * (m + n * (den : Int)) := by
      rw [hm] at hh ⊢
      linear_combination hh
    exact mul_left_cancel₀ two_ne_zero h2
  have hfd : Int.fdiv num den = n := by
    rw [Int.fdiv_eq_ediv _ (le_of_lt hdz)]
    rw [hnum, Int.add_mul_ediv_right m n (ne_of_gt hdz)]
    rw [Int.ediv_eq_zero_of_lt (by omega) (by omega)]
    omega
  have hr : num - n * (den : Int) = m := by
    rw [hnum]
    ring
  simp only [pyRoundDec, hfd, hr]
  rw [hm]
  rw [if_neg (by omega), if_neg (by omega)]

/-! ## Claim C1 -/

/-- A document whose lap has a `Calories` element with no text at all
(`<Calories/>`): `calories.text` is `None`. -/
def c1Doc : Elem :=
  .mk (qtcx "TrainingCenterDatabase") [] none
    [ .mk (qtcx "Activities") [] none
        [ .mk (qtcx "Activity") [] none
            [ .mk (qtcx "Lap") [] none
                [ .mk (qtcx "Calories") [] none [] ] ] ] ]

/-- As `c1Doc`, but the `Calories` text parses to an infinity. -/
def c1DocInf : Elem :=
  .mk (qtcx "TrainingCenterDatabase") [] none
    [ .mk (qtcx "Activities") [] none
        [ .mk (qtcx "Activity") [] none
            [ .mk (qtcx "Lap") [] none
                [ .mk (qtcx "Calories") [] (some "inf") [] ] ] ] ]

/-- C1: the claim says a rounding-set field whose text does not parse as
a finite number — absent text explicitly included — is left unchanged and
never aborts the transformation.  The code contradicts this: `float(None)`
raises `TypeError` and `round(float("inf"))` raises `OverflowError`,
neither of which the `except ValueError` handlers catch, so the whole
transformation aborts on a single such field. -/
theorem c1_absent_text_aborts_transform :
    cleanTree c1Doc = .error .typeError ∧
    cleanTree c1DocInf = .error .overflowError := by
  decide

/-! ## Claim C5 -/

/-- C5: a missing input path fails with the NotFound error, whose message
includes the path; no file is written (the error result carries no file
system, so no write occurred). -/
theorem c5_missing_input_fails_without_write
    (parseXML : String → Option Elem) (serialize : Elem → String)
    (fs : FS) (p : String) (outputFile : Option String)
    (h : FS.lookup fs p = none) :
    clean_strava_peloton_tcx parseXML serialize fs p outputFile =
      .error (.fileNotFound ("Input file '" ++ p ++ "' not found.")) ∧
    ∃ pre post, "Input file '" ++ p ++ "' not found." = pre ++ p ++ post := by
  constructor
  · unfold clean_strava_peloton_tcx
    rw [h]
  · exact ⟨"Input file '", "' not found.", rfl⟩

theorem c5_witness :
    FS.lookup ⟨[]⟩ "missing.tcx" = none ∧
    (clean_strava_peloton_tcx (fun _ => none) (fun _ => "") ⟨[]⟩ "missing.tcx" none =
      .error (.fileNotFound ("Input file '" ++ "missing.tcx" ++ "' not found.")) ∧
     ∃ pre post, "Input file '" ++ "missing.tcx" ++ "' not found." = pre ++ "missing.tcx" ++ post) :=
  ⟨rfl, c5_missing_input_fails_without_write (fun _ => none) (fun _ => "") ⟨[]⟩ "missing.tcx" none rfl⟩

/-! ## Claim C4 -/

/-- A parsed tree for the retry scenarios. -/
def c4Tree : Elem := .mk (qtcx "TrainingCenterDatabase") [] none []

/-- The document body after the declaration. -/
def c4Body : String := "<TrainingCenterDatabase/>"

/-- A byte-order marker, then a valid XML declaration, then well-formed
content — the claim's scenario. -/
def c4Content : String := "﻿<?xml version=\"1.0\" encoding=\"utf-8\"?><TrainingCenterDatabase/>"

/-- `ET.fromstring` restricted to the strings this scenario evaluates it
on: it fails on anything except the well-formed body (in particular on
BOM-prefixed content and on content with text before the declaration,
exactly as the real parser does). -/
def c4Parse : String → Option Elem := fun s => if s = c4Body then some c4Tree else none

/-- C4 counterexample: for BOM-prefixed content the `content.startswith('<?xml')`
test is false, so nothing is stripped and the retry re-parses the identical
content and fails — even though the content after the first `?>` (which the
claim says is stripped) parses fine.  The claim's recovery scenario fails. -/
theorem c4_counterexample_bom_defeats_recovery :
    startsWithL "<?xml".data c4Content.data = false ∧
    recoverContent c4Content = c4Content ∧
    parseWithRetry c4Parse c4Content = .error .xmlParseError ∧
    (findSubL "?>".data c4Content.data).isSome = true ∧
    c4Parse (String.mk (trimChars
      (c4Content.data.drop ((findSubL "?>".data c4Content.data).getD 0 + 2)))) = some c4Tree := by
  decide

/-- C4 amended: the recovery works exactly when the stripped content
itself begins with `<?xml` (e.g. a duplicated declaration): everything
through the first `?>` is dropped, whitespace is stripped again, and a
single retry parse succeeds. -/
theorem c4_amended_retry_after_declaration
    (parseXML : String → Option Elem) (c : String) (i : Nat) (r : Elem)
    (h1 : startsWithL "<?xml".data c.data = true)
    (h2 : parseXML c = none)
    (h3 : findSubL "?>".data c.data = some i)
    (h4 : parseXML (String.mk (trimChars (c.data.drop (i + 2)))) = some r) :
    parseWithRetry parseXML c = .ok r := by
  unfold parseWithRetry
  rw [h2]
  unfold recoverContent
  rw [h1]
  simp only [if_true, h3, h4]

theorem c4_witness :
    startsWithL "<?xml".data ("<?xml?><TrainingCenterDatabase/>").data = true ∧
    c4Parse "<?xml?><TrainingCenterDatabase/>" = none ∧
    findSubL "?>".data ("<?xml?><TrainingCenterDatabase/>").data = some 5 ∧
    c4Parse (String.mk (trimChars (("<?xml?><TrainingCenterDatabase/>").data.drop (5 + 2)))) = some c4Tree ∧
    parseWithRetry c4Parse "<?xml?><TrainingCenterDatabase/>" = .ok c4Tree :=
  ⟨by decide, by decide, by decide, by decide,
    c4_amended_retry_after_declaration c4Parse "<?xml?><TrainingCenterDatabase/>" 5 c4Tree
      (by decide) (by decide) (by decide) (by decide)⟩

/-! ## Claim C10 -/

/-- C10: when a rounding-set field's text parses to a value exactly
halfway between two integers (`num / den = n + 1/2`, written without
division as `2 num = den (2 n + 1)`), the code writes the even
neighbour: Python's one-argument `round` rounds half to even. -/
theorem c10_half_rounds_to_even (s : String) (num : Int) (den : Nat) (n : Int)
    (hp : parsePyFloat s = some (.finite num den))
    (hh : 2 * num = (den : Int) * (2 * n + 1)) :
    roundFieldText (some s) = .ok (some (toString (if n % 2 = 0 then n else n + 1))) := by
  have hden := parsePyFloat_den_pos s num den hp
  simp only [roundFieldText, hp]
  rw [pyRoundDec_half num den n hden hh]

theorem c10_witness :
    parsePyFloat "184.5" = some (.finite 1845 10) ∧
    2 * (1845 : Int) = ((10 : Nat) : Int) * (2 * 184 + 1) ∧
    roundFieldText (some "184.5") =
      .ok (some (toString (if (184 : Int) % 2 = 0 then (184 : Int) else 184 + 1))) ∧
    parsePyFloat "185.5" = some (.finite 1855 10) ∧
    2 * (1855 : Int) = ((10 : Nat) : Int) * (2 * 185 + 1) ∧
    roundFieldText (some "185.5") =
      .ok (some (toString (if (185 : Int) % 2 = 0 then (185 : Int) else 185 + 1))) :=
  ⟨by decide, by decide,
    c10_half_rounds_to_even "184.5" 1845 10 184 (by decide) (by decide),
    by decide, by decide,
    c10_half_rounds_to_even "185.5" 1855 10 185 (by decide) (by decide)⟩

/-! ## Claim C2 -/

/-- An activity with two `Creator` children. -/
def c2Doc : Elem :=
  .mk (qtcx "TrainingCenterDatabase") [] none
    [ .mk (qtcx "Activities") [] none
        [ .mk (qtcx "Activity") [("Sport", "Biking")] none
            [ .mk (qtcx "Creator") [] (some "DeviceA") [],
              .mk (qtcx "Creator") [] (some "DeviceB") [] ] ] ]

def c2Out : Elem :=
  .mk (qtcx "TrainingCenterDatabase") [] none
    [ .mk (qtcx "Activities") [] none
        [ .mk (qtcx "Activity") [("Sport", "Biking")] none
            [ .mk (qtcx "Creator") [] (some "DeviceB") [] ] ] ]

/-- C2 counterexample: `find` returns only the first `Creator`, so with
two `Creator` children the output still contains an `Activity` with a
direct `Creator` child, refuting the claim as stated. -/
theorem c2_counterexample_second_creator_survives :
    cleanTree c2Doc = .ok c2Out ∧ noActCrE c2Out = false := by
  decide

/-- C2 amended: the pass removes the first `Creator` child of the first
`Activity` descendant.  When the root is not itself an `Activity`, the
document holds at most one `Activity` element, and every `Activity` has
at most one direct `Creator` child, the output contains no `Activity`
with a direct `Creator` child; absence of either element is a no-op, not
an error. -/
theorem c2_amended_first_creator_removed (root u : Elem)
    (h1 : root.tag ≠ qtcx "Activity")
    (h2 : countTagL (qtcx "Activity") root.children ≤ 1)
    (h3 : actOkL root.children = true)
    (h : cleanTree root = .ok u) :
    noActCrE u = true := by
  unfold cleanTree at h
  cases hm : mapTaggedDesc (qtcx "Lap") lapProcess (removeCreatorStep root) with
  | error e => rw [hm] at h; cases h
  | ok r2 =>
    rw [hm] at h
    dsimp only at h
    have hp1 : noActCrE (removeCreatorStep root) = true := by
      cases root with
      | mk t a x cs =>
        simp only [Elem.tag] at h1
        simp only [Elem.children] at h2 h3
        simp only [removeCreatorStep, updFirstDescendant, noActCrE, Bool.and_eq_true,
          Bool.or_eq_true, Bool.not_eq_true', beq_eq_false_iff_ne]
        exact ⟨Or.inl h1, phase1L cs h2 h3⟩
    have r12 := mapTaggedDesc_rel _ _ (fun e e2 _ he => lapProcess_rel e e2 he) _ _ hm
    have r23 := mapTaggedDesc_rel _ _ (fun e e2 _ he => tpProcess_rel e e2 he) _ _ h
    exact noActCr_of_relE _ _ (FrameRel_trans _ r2 _ r12 r23) hp1

/-- An activity with a single `Creator` child and a lap. -/
def c2wDoc : Elem :=
  .mk (qtcx "TrainingCenterDatabase") [] none
    [ .mk (qtcx "Activities") [] none
        [ .mk (qtcx "Activity") [("Sport", "Biking")] none
            [ .mk (qtcx "Creator") [] (some "Peloton") [],
              .mk (qtcx "Lap") [] none [.mk (qtcx "Calories") [] (some "10.2") []] ] ] ]

def c2wOut : Elem :=
  .mk (qtcx "TrainingCenterDatabase") [] none
    [ .mk (qtcx "Activities") [] none
        [ .mk (qtcx "Activity") [("Sport", "Biking")] none
            [ .mk (qtcx "Lap") [] none [.mk (qtcx "Calories") [] (some "10") []] ] ] ]

theorem c2_witness :
    c2wDoc.tag ≠ qtcx "Activity" ∧
    countTagL (qtcx "Activity") c2wDoc.children ≤ 1 ∧
    actOkL c2wDoc.children = true ∧
    cleanTree c2wDoc = .ok c2wOut ∧
    noActCrE c2wOut = true :=
  ⟨by decide, by decide, by decide, by decide,
    c2_amended_first_creator_removed c2wDoc c2wOut (by decide) (by decide) (by decide) (by decide)⟩

/-! ## Claim C3 -/

def c3Doc : Elem :=
  .mk (qtcx "TrainingCenterDatabase") [] none
    [ .mk (qtcx "Activities") [] none
        [ .mk (qtcx "Activity") [] none
            [ .mk (qtcx "Creator") [] (some "First") [],
              .mk (qtcx "Creator") [] (some "Second") [] ] ] ]

def c3Mid : Elem :=
  .mk (qtcx "TrainingCenterDatabase") [] none
    [ .mk (qtcx "Activities") [] none
        [ .mk (qtcx "Activity") [] none
            [ .mk (qtcx "Creator") [] (some "Second") [] ] ] ]

def c3Out2 : Elem :=
  .mk (qtcx "TrainingCenterDatabase") [] none
    [ .mk (qtcx "Activities") [] none
        [ .mk (qtcx "Activity") [] none [] ] ]

/-- C3 counterexample: on a document with two `Creator` children the
transform succeeds, but applying it to its own output removes another
`Creator` and produces a different document — the output is not a fixed
point, so re-serialization cannot be byte-identical. -/
theorem c3_counterexample_not_fixed_point :
    cleanTree c3Doc = .ok c3Mid ∧ cleanTree c3Mid = .ok c3Out2 ∧ c3Mid ≠ c3Out2 := by
  decide

/-- C3 amended: when the first run's output tree `u` is stable — nothing
left for the Creator removal and every lap and trackpoint already in
cleaned shape, which can fail only when the input duplicates a removable
element — a second run of the full transform on the written file parses
the same tree, maps it to itself, and writes byte-identical content. -/
theorem c3_amended_stable_output_fixed
    (parseXML : String → Option Elem) (serialize : Elem → String)
    (fs : FS) (p : String) (t u : Elem)
    (ht : cleanTree t = .ok u)
    (h0 : FS.lookup fs p = some (serialize u))
    (h1 : parseXML (pyStrip (serialize u)) = some u)
    (hs : cleanStable u = true) :
    clean_strava_peloton_tcx parseXML serialize fs p none =
      .ok (FS.write fs p (serialize u), p) := by
  have hpr : parseWithRetry parseXML (pyStrip (serialize u)) = .ok u := by
    unfold parseWithRetry
    rw [h1]
  unfold clean_strava_peloton_tcx
  rw [h0]
  dsimp only
  rw [hpr]
  dsimp only
  rw [cleanStable_cleanTree u hs]

def c3wDoc : Elem :=
  .mk (qtcx "TrainingCenterDatabase") [] none
    [ .mk (qtcx "Activities") [] none
        [ .mk (qtcx "Activity") [("Sport", "Biking")] none
            [ .mk (qtcx "Creator") [] (some "Peloton") [],
              .mk (qtcx "Lap") [("StartTime", "T0")] none
                [ .mk (qtcx "Calories") [] (some "185.6") [],
                  .mk (qtcx "Cadence") [] (some "60.2") [],
                  .mk (qtcx "AverageHeartRateBpm") [] none
                    [.mk (qtcx "Value") [] (some "120.4") []],
                  .mk (qtcx "Extensions") [] none
                    [ .mk (qext "TPX") [] none
                        [ .mk (qext "AverageCadence") [] (some "78.0") [],
                          .mk (qext "TotalPower") [] (some "5") [],
                          .mk (qext "AverageWatts") [] (some "99.5") [] ] ],
                  .mk (qtcx "Track") [] none
                    [ .mk (qtcx "Trackpoint") [] none
                        [ .mk (qtcx "HeartRateBpm") [] none
                            [.mk (qtcx "Value") [] (some "130.6") []],
                          .mk (qtcx "Cadence") [] (some "81.2") [],
                          .mk (qtcx "Extensions") [] none
                            [ .mk (qext "TPX") [] none
                                [ .mk (qext "Resistance") [] (some "32") [],
                                  .mk (qext "Watts") [] (some "145.3") [] ] ] ] ] ] ] ] ]

def c3wOut : Elem :=
  .mk (qtcx "TrainingCenterDatabase") [] none
    [ .mk (qtcx "Activities") [] none
        [ .mk (qtcx "Activity") [("Sport", "Biking")] none
            [ .mk (qtcx "Lap") [("StartTime", "T0")] none
                [ .mk (qtcx "Calories") [] (some "186") [],
                  .mk (qtcx "AverageHeartRateBpm") [] none
                    [.mk (qtcx "Value") [] (some "120") []],
                  .mk (qtcx "Extensions") [] none
                    [ .mk (qext "LX") [] none
                        [ .mk (qext "AvgCadence") [] (some "78") [],
                          .mk (qext "AvgWatts") [] (some "100") [] ] ],
                  .mk (qtcx "Track") [] none
                    [ .mk (qtcx "Trackpoint") [] none
                        [ .mk (qtcx "HeartRateBpm") [] none
                            [.mk (qtcx "Value") [] (some "131") []],
                          .mk (qtcx "Cadence") [] (some "81") [],
                          .mk (qtcx "Extensions") [] none
                            [ .mk (qext "TPX") [] none
                                [ .mk (qext "Watts") [] (some "145") [] ] ] ] ] ] ] ] ]

def c3wSer : Elem → String := fun e => if e = c3wOut then "SERIALIZED" else "OTHER"

def c3wParse : String → Option Elem := fun s => if s = "SERIALIZED" then some c3wOut else none

def c3wFS : FS := ⟨[("out.tcx", "SERIALIZED")]⟩

theorem c3_witness :
    cleanTree c3wDoc = .ok c3wOut ∧
    FS.lookup c3wFS "out.tcx" = some (c3wSer c3wOut) ∧
    c3wParse (pyStrip (c3wSer c3wOut)) = some c3wOut ∧
    cleanStable c3wOut = true ∧
    clean_strava_peloton_tcx c3wParse c3wSer c3wFS "out.tcx" none =
      .ok (FS.write c3wFS "out.tcx" (c3wSer c3wOut), "out.tcx") :=
  ⟨by decide, by decide, by decide, by decide,
    c3_amended_stable_output_fixed c3wParse c3wSer c3wFS "out.tcx" c3wDoc c3wOut
      (by decide) (by decide) (by decide) (by decide)⟩

/-! ## Claim C9 -/

/-- C9: the frame theorem.  Every successful run relates input to output
by `FrameRel`: attributes unchanged everywhere, tags unchanged except
along the fixed rename mapping (which stays inside the extension
namespace), texts unchanged except for replacement by an integer string
at rounded fields, and children preserved in order except for removals
drawn from the documented removal sets.  Namespaces live inside the
Clark-notation tags, so the two known namespace URIs are preserved
wherever elements survive. -/
theorem c9_frame_preservation (t u : Elem) (h : cleanTree t = .ok u) : FrameRel t u :=
  cleanTree_FrameRel t u h

def c9wDoc : Elem :=
  .mk (qtcx "TrainingCenterDatabase") [] none
    [ .mk (qtcx "Activities") [] none
        [ .mk (qtcx "Activity") [] none
            [ .mk (qtcx "Creator") [] (some "Peloton") [],
              .mk (qtcx "Lap") [] none
                [ .mk (qtcx "Calories") [] (some "10.4") [],
                  .mk (qtcx "Cadence") [] (some "61") [],
                  .mk (qtcx "Extensions") [] none
                    [ .mk (qext "TPX") [] none
                        [ .mk (qext "TotalPower") [] (some "5") [],
                          .mk (qext "AverageWatts") [] (some "99.5") [] ] ] ] ] ] ]

def c9wOut : Elem :=
  .mk (qtcx "TrainingCenterDatabase") [] none
    [ .mk (qtcx "Activities") [] none
        [ .mk (qtcx "Activity") [] none
            [ .mk (qtcx "Lap") [] none
                [ .mk (qtcx "Calories") [] (some "10") [],
                  .mk (qtcx "Extensions") [] none
                    [ .mk (qext "LX") [] none
                        [ .mk (qext "AvgWatts") [] (some "100") [] ] ] ] ] ] ]

theorem c9_witness : FrameRel c9wDoc c9wOut :=
  c9_frame_preservation c9wDoc c9wOut (by decide)

/-! ## Element-level tracking lemmas -/

theorem roundFirstChildText_firstTag_self (tag : String) (e e2 c : Elem) (x : Option String)
    (hf : firstTag tag e.children = some c)
    (hr : roundFieldText c.text = .ok x)
    (h : roundFirstChildText tag e = .ok e2) :
    firstTag tag e2.children = some (c.withText x) := by
  unfold roundFirstChildText updFirstChild at h
  cases hu : updFirstTagL tag
      (fun c =>
        match roundFieldText c.text with
        | .error err => .error err
        | .ok t2 => .ok (c.withText t2)) e.children with
  | error err => rw [hu] at h; cases h
  | ok cs2 =>
    rw [hu] at h
    simp only [Except.ok.injEq] at h
    subst h
    rw [Elem.children_withChildren]
    exact updFirstTagL_round_firstTag tag c x hr e.children cs2 hf hu

theorem roundFirstChildText_firstTag_other (tag t : String) (hne : t ≠ tag) (e e2 : Elem)
    (h : roundFirstChildText tag e = .ok e2) :
    firstTag t e2.children = firstTag t e.children := by
  unfold roundFirstChildText updFirstChild at h
  cases hu : updFirstTagL tag
      (fun c =>
        match roundFieldText c.text with
        | .error err => .error err
        | .ok t2 => .ok (c.withText t2)) e.children with
  | error err => rw [hu] at h; cases h
  | ok cs2 =>
    rw [hu] at h
    simp only [Except.ok.injEq] at h
    subst h
    rw [Elem.children_withChildren]
    exact updFirstTagL_firstTag_other tag t _ hne
      (fun c d hcd => roundTextElem_tag c d hcd) e.children cs2 hu

theorem roundPath2Text_firstTag_other (ta tb t : String) (hne : t ≠ ta) (e e2 : Elem)
    (h : roundPath2Text ta tb e = .ok e2) :
    firstTag t e2.children = firstTag t e.children := by
  unfold roundPath2Text at h
  cases hu : roundPath2L ta tb e.children with
  | error err => rw [hu] at h; cases h
  | ok cs2 =>
    rw [hu] at h
    simp only [Except.ok.injEq] at h
    subst h
    rw [Elem.children_withChildren]
    exact roundPath2L_firstTag_other ta tb t hne e.children cs2 hu

theorem updFirstChild_tag_pres (tag : String) (f : Elem → Except PyErr Elem) (e e2 : Elem)
    (h : updFirstChild tag f e = .ok e2) : e2.tag = e.tag := by
  unfold updFirstChild at h
  cases hu : updFirstTagL tag f e.children with
  | error err => rw [hu] at h; cases h
  | ok cs2 =>
    rw [hu] at h
    simp only [Except.ok.injEq] at h
    subst h
    exact Elem.tag_withChildren e cs2

theorem updFirstChild_firstTag_other (tag t : String) (f : Elem → Except PyErr Elem)
    (hne : t ≠ tag) (hpres : ∀ c d, f c = .ok d → d.tag = c.tag) (e e2 : Elem)
    (h : updFirstChild tag f e = .ok e2) :
    firstTag t e2.children = firstTag t e.children := by
  unfold updFirstChild at h
  cases hu : updFirstTagL tag f e.children with
  | error err => rw [hu] at h; cases h
  | ok cs2 =>
    rw [hu] at h
    simp only [Except.ok.injEq] at h
    subst h
    rw [Elem.children_withChildren]
    exact updFirstTagL_firstTag_other tag t f hne hpres e.children cs2 hu

/-! ## Claim C6 -/

/-- C6: a lap whose first `Calories` child reads "185.6" comes out with
that child's text set to "186" — rounded to the nearest integer, not
truncated to "185". -/
theorem c6_calories_rounded (lap out cal : Elem)
    (hc : firstTag (qtcx "Calories") lap.children = some cal)
    (ht : cal.text = some "185.6")
    (h : lapProcess lap = .ok out) :
    firstTag (qtcx "Calories") out.children = some (cal.withText (some "186")) := by
  unfold lapProcess at h
  have h0 : firstTag (qtcx "Calories") (removeFirstChild (qtcx "Cadence") lap).children
      = some cal := by
    simp only [removeFirstChild, Elem.children_withChildren]
    rw [firstTag_removeFirstTag_ne _ _ (by decide) lap.children]
    exact hc
  cases h1 : roundFirstChildText (qtcx "Calories") (removeFirstChild (qtcx "Cadence") lap) with
  | error err => rw [h1] at h; cases h
  | ok lap2 =>
    rw [h1] at h
    dsimp only at h
    have hr : roundFieldText cal.text = .ok (some "186") := by
      rw [ht]
      decide
    have hs1 : firstTag (qtcx "Calories") lap2.children = some (cal.withText (some "186")) :=
      roundFirstChildText_firstTag_self _ _ _ _ _ h0 hr h1
    cases h2 : roundPath2Text (qtcx "AverageHeartRateBpm") (qtcx "Value") lap2 with
    | error err => rw [h2] at h; cases h
    | ok lap3 =>
      rw [h2] at h
      dsimp only at h
      have hs2 : firstTag (qtcx "Calories") lap3.children = some (cal.withText (some "186")) := by
        rw [roundPath2Text_firstTag_other _ _ _ (by decide) lap2 lap3 h2]
        exact hs1
      cases h3 : roundPath2Text (qtcx "MaximumHeartRateBpm") (qtcx "Value") lap3 with
      | error err => rw [h3] at h; cases h
      | ok lap4 =>
        rw [h3] at h
        dsimp only at h
        have hs3 : firstTag (qtcx "Calories") lap4.children = some (cal.withText (some "186")) := by
          rw [roundPath2Text_firstTag_other _ _ _ (by decide) lap3 lap4 h3]
          exact hs2
        rw [updFirstChild_firstTag_other (qtcx "Extensions") (qtcx "Calories") _ (by decide)
          (fun c d hcd => updFirstChild_tag_pres _ _ c d hcd) lap4 out h]
        exact hs3

def c6wLap : Elem :=
  .mk (qtcx "Lap") [("StartTime", "T1")] none
    [ .mk (qtcx "Time") [] (some "1200.5") [],
      .mk (qtcx "Calories") [] (some "185.6") [],
      .mk (qtcx "Cadence") [] (some "60") [] ]

theorem c6_witness :
    firstTag (qtcx "Calories") c6wLap.children =
      some (.mk (qtcx "Calories") [] (some "185.6") []) ∧
    (Elem.mk (qtcx "Calories") [] (some "185.6") []).text = some "185.6" ∧
    lapProcess c6wLap =
      .ok (.mk (qtcx "Lap") [("StartTime", "T1")] none
        [ .mk (qtcx "Time") [] (some "1200.5") [],
          .mk (qtcx "Calories") [] (some "186") [] ]) ∧
    firstTag (qtcx "Calories")
      (Elem.mk (qtcx "Lap") [("StartTime", "T1")] none
        [ .mk (qtcx "Time") [] (some "1200.5") [],
          .mk (qtcx "Calories") [] (some "186") [] ]).children =
      some ((Elem.mk (qtcx "Calories") [] (some "185.6") []).withText (some "186")) :=
  ⟨by decide, by decide, by decide,
    c6_calories_rounded c6wLap _ (.mk (qtcx "Calories") [] (some "185.6") [])
      (by decide) (by decide) (by decide)⟩

/-! ## Claim C7 -/

theorem tpxChildStep_rename_shape (c d : Elem) (new : String)
    (hrem : removableLapExt (localName c.tag) = false)
    (hren : renameLocal (localName c.tag) = some new)
    (h : tpxChildStep c = .ok d) :
    ∃ x, d = Elem.mk (qext new) c.attrs x c.children := by
  simp only [tpxChildStep, hrem, Bool.false_eq_true, if_false, hren] at h
  have ht : (c.withTag (qext new)).text = c.text := by
    cases c
    rfl
  rw [ht] at h
  cases hg : roundGuardedText c.text with
  | error err => rw [hg] at h; cases h
  | ok x =>
    rw [hg] at h
    simp only [Except.ok.injEq] at h
    refine ⟨x, ?_⟩
    rw [← h]
    cases c
    rfl

/-- C7: a lap `TPX` block becomes an `LX` block with the same attributes;
no child named by a rename source or by a removal name survives; an
`AverageCadence` child reading "78.0" reappears as `AvgCadence` reading
"78" in the extension namespace with its attributes and children intact;
and each of the other three rename sources reappears under its target
name. -/
theorem c7_lap_extension_block (tpx out : Elem)
    (h : tpxLapStep tpx = .ok out) :
    out.tag = qext "LX" ∧
    out.attrs = tpx.attrs ∧
    (∀ d ∈ out.children,
      renameLocal (localName d.tag) = none ∧ removableLapExt (localName d.tag) = false) ∧
    (∀ c ∈ tpx.children, localName c.tag = "AverageCadence" → c.text = some "78.0" →
      Elem.mk (qext "AvgCadence") c.attrs (some "78") c.children ∈ out.children) ∧
    (∀ c ∈ tpx.children, localName c.tag = "MaximumCadence" →
      ∃ x, Elem.mk (qext "MaxCadence") c.attrs x c.children ∈ out.children) ∧
    (∀ c ∈ tpx.children, localName c.tag = "AverageWatts" →
      ∃ x, Elem.mk (qext "AvgWatts") c.attrs x c.children ∈ out.children) ∧
    (∀ c ∈ tpx.children, localName c.tag = "MaximumWatts" →
      ∃ x, Elem.mk (qext "MaxWatts") c.attrs x c.children ∈ out.children) := by
  unfold tpxLapStep at h
  cases hcs : tpxChildrenStep tpx.children with
  | error err => rw [hcs] at h; cases h
  | ok ds =>
    rw [hcs] at h
    simp only [Except.ok.injEq] at h
    subst h
    refine ⟨rfl, rfl, ?_, ?_, ?_, ?_, ?_⟩
    · intro d hd
      simp only [Elem.children] at hd
      rw [List.mem_filter] at hd
      obtain ⟨hds, hkeep⟩ := hd
      simp only [Bool.not_eq_true'] at hkeep
      obtain ⟨c, _, hstep⟩ := tpxChildrenStep_mem_rev tpx.children ds hcs d hds
      exact ⟨tpxChildStep_renameLocal_none c d hstep hkeep, hkeep⟩
    · intro c hc hloc htext
      have hrem : removableLapExt (localName c.tag) = false := by
        rw [hloc]
        decide
      have hren : renameLocal (localName c.tag) = some "AvgCadence" := by
        rw [hloc]
        decide
      have hg : roundGuardedText c.text = .ok (some "78") := by
        rw [htext]
        decide
      have hstep := tpxChildStep_rename c "AvgCadence" (some "78") hrem hren hg
      obtain ⟨d, hdmem, hstep2⟩ := tpxChildrenStep_mem tpx.children ds hcs c hc
      rw [hstep] at hstep2
      simp only [Except.ok.injEq] at hstep2
      subst hstep2
      simp only [Elem.children]
      rw [List.mem_filter]
      refine ⟨hdmem, ?_⟩
      simp only [Elem.tag]
      decide
    · intro c hc hloc
      have hrem : removableLapExt (localName c.tag) = false := by
        rw [hloc]
        decide
      have hren : renameLocal (localName c.tag) = some "MaxCadence" := by
        rw [hloc]
        decide
      obtain ⟨d, hdmem, hstep⟩ := tpxChildrenStep_mem tpx.children ds hcs c hc
      obtain ⟨x, hx⟩ := tpxChildStep_rename_shape c d "MaxCadence" hrem hren hstep
      subst hx
      refine ⟨x, ?_⟩
      simp only [Elem.children]
      rw [List.mem_filter]
      refine ⟨hdmem, ?_⟩
      simp only [Elem.tag]
      decide
    · intro c hc hloc
      have hrem : removableLapExt (localName c.tag) = false := by
        rw [hloc]
        decide
      have hren : renameLocal (localName c.tag) = some "AvgWatts" := by
        rw [hloc]
        decide
      obtain ⟨d, hdmem, hstep⟩ := tpxChildrenStep_mem tpx.children ds hcs c hc
      obtain ⟨x, hx⟩ := tpxChildStep_rename_shape c d "AvgWatts" hrem hren hstep
      subst hx
      refine ⟨x, ?_⟩
      simp only [Elem.children]
      rw [List.mem_filter]
      refine ⟨hdmem, ?_⟩
      simp only [Elem.tag]
      decide
    · intro c hc hloc
      have hrem : removableLapExt (localName c.tag) = false := by
        rw [hloc]
        decide
      have hren : renameLocal (localName c.tag) = some "MaxWatts" := by
        rw [hloc]
        decide
      obtain ⟨d, hdmem, hstep⟩ := tpxChildrenStep_mem tpx.children ds hcs c hc
      obtain ⟨x, hx⟩ := tpxChildStep_rename_shape c d "MaxWatts" hrem hren hstep
      subst hx
      refine ⟨x, ?_⟩
      simp only [Elem.children]
      rw [List.mem_filter]
      refine ⟨hdmem, ?_⟩
      simp only [Elem.tag]
      decide

def c7wTpx : Elem :=
  .mk (qext "TPX") [("xmlns", "ae")] none
    [ .mk (qext "AverageCadence") [] (some "78.0") [],
      .mk (qext "MaximumCadence") [] (some "90.2") [],
      .mk (qext "AverageWatts") [] (some "99.5") [],
      .mk (qext "MaximumWatts") [] (some "200") [],
      .mk (qext "TotalPower") [] (some "5") [],
      .mk (qext "Steps") [] (some "abc") [] ]

def c7wOut : Elem :=
  .mk (qext "LX") [("xmlns", "ae")] none
    [ .mk (qext "AvgCadence") [] (some "78") [],
      .mk (qext "MaxCadence") [] (some "90") [],
      .mk (qext "AvgWatts") [] (some "100") [],
      .mk (qext "MaxWatts") [] (some "200") [],
      .mk (qext "Steps") [] (some "abc") [] ]

theorem c7_witness :
    tpxLapStep c7wTpx = .ok c7wOut ∧
    (c7wOut.tag = qext "LX" ∧
     c7wOut.attrs = c7wTpx.attrs ∧
     (∀ d ∈ c7wOut.children,
       renameLocal (localName d.tag) = none ∧ removableLapExt (localName d.tag) = false) ∧
     (∀ c ∈ c7wTpx.children, localName c.tag = "AverageCadence" → c.text = some "78.0" →
       Elem.mk (qext "AvgCadence") c.attrs (some "78") c.children ∈ c7wOut.children) ∧
     (∀ c ∈ c7wTpx.children, localName c.tag = "MaximumCadence" →
       ∃ x, Elem.mk (qext "MaxCadence") c.attrs x c.children ∈ c7wOut.children) ∧
     (∀ c ∈ c7wTpx.children, localName c.tag = "AverageWatts" →
       ∃ x, Elem.mk (qext "AvgWatts") c.attrs x c.children ∈ c7wOut.children) ∧
     (∀ c ∈ c7wTpx.children, localName c.tag = "MaximumWatts" →
       ∃ x, Elem.mk (qext "MaxWatts") c.attrs x c.children ∈ c7wOut.children)) :=
  ⟨by decide, c7_lap_extension_block c7wTpx c7wOut (by decide)⟩

/-! ## Claim C8 -/

def c8Doc : Elem :=
  .mk (qtcx "TrainingCenterDatabase") [] none
    [ .mk (qtcx "Activities") [] none
        [ .mk (qtcx "Activity") [] none
            [ .mk (qtcx "Lap") [] none
                [ .mk (qtcx "Track") [] none
                    [ .mk (qtcx "Trackpoint") [] none
                        [ .mk (qtcx "Extensions") [] none
                            [ .mk (qext "TPX") [] none
                                [ .mk (qext "Resistance") [] (some "30") [],
                                  .mk (qext "Resistance") [] (some "31") [],
                                  .mk (qext "Watts") [] (some "145.3") [] ] ] ] ] ] ] ] ]

def c8Out : Elem :=
  .mk (qtcx "TrainingCenterDatabase") [] none
    [ .mk (qtcx "Activities") [] none
        [ .mk (qtcx "Activity") [] none
            [ .mk (qtcx "Lap") [] none
                [ .mk (qtcx "Track") [] none
                    [ .mk (qtcx "Trackpoint") [] none
                        [ .mk (qtcx "Extensions") [] none
                            [ .mk (qext "TPX") [] none
                                [ .mk (qext "Resistance") [] (some "31") [],
                                  .mk (qext "Watts") [] (some "145") [] ] ] ] ] ] ] ] ]

/-- C8 counterexample: `tpx.find("ae:Resistance")` removes only the
first `Resistance`; with two of them one survives the transform, so the
output does not contain zero `Resistance` children. -/
theorem c8_counterexample_second_resistance_survives :
    cleanTree c8Doc = .ok c8Out ∧ countTagE (qext "Resistance") c8Out = 1 := by
  decide

/-- C8 amended: the trackpoint extension step removes the first
`Resistance` child, so when the block holds at most one such child none
remain; and the first `Watts` sibling reading "145.3" comes out reading
"145". -/
theorem c8_amended_first_resistance_removed (tpx out : Elem)
    (hcount : tpx.children.countP (fun c => c.tag = qext "Resistance") ≤ 1)
    (h : tpExtTpxStep tpx = .ok out) :
    out.children.countP (fun c => c.tag = qext "Resistance") = 0 ∧
    (∀ w, firstTag (qext "Watts") tpx.children = some w → w.text = some "145.3" →
      firstTag (qext "Watts") out.children = some (w.withText (some "145"))) := by
  unfold tpExtTpxStep roundFirstChildText updFirstChild at h
  cases hu : updFirstTagL (qext "Watts")
      (fun c =>
        match roundFieldText c.text with
        | .error err => .error err
        | .ok t2 => .ok (c.withText t2))
      (removeFirstChild (qext "Resistance") tpx).children with
  | error err => rw [hu] at h; cases h
  | ok cs2 =>
    rw [hu] at h
    simp only [Except.ok.injEq] at h
    subst h
    simp only [removeFirstChild, Elem.children_withChildren] at hu ⊢
    constructor
    · rw [updFirstTagL_countP (qext "Watts") (qext "Resistance") _
        (fun c d hcd => roundTextElem_tag c d hcd) _ cs2 hu]
      exact removeFirstTag_countP_clears (qext "Resistance") tpx.children hcount
    · intro w hw hwt
      have hw2 : firstTag (qext "Watts") (removeFirstTag (qext "Resistance") tpx.children) =
          some w := by
        rw [firstTag_removeFirstTag_ne _ _ (by decide) tpx.children]
        exact hw
      have hr : roundFieldText w.text = .ok (some "145") := by
        rw [hwt]
        decide
      exact updFirstTagL_round_firstTag _ w (some "145") hr _ cs2 hw2 hu

def c8wTpx : Elem :=
  .mk (qext "TPX") [] none
    [ .mk (qext "Resistance") [] (some "32") [],
      .mk (qext "Watts") [] (some "145.3") [],
      .mk (qext "Speed") [] (some "7.3") [] ]

theorem c8_witness :
    c8wTpx.children.countP (fun c => c.tag = qext "Resistance") ≤ 1 ∧
    tpExtTpxStep c8wTpx =
      .ok (.mk (qext "TPX") [] none
        [ .mk (qext "Watts") [] (some "145") [],
          .mk (qext "Speed") [] (some "7.3") [] ]) ∧
    ((Elem.mk (qext "TPX") [] none
        [ .mk (qext "Watts") [] (some "145") [],
          .mk (qext "Speed") [] (some "7.3") [] ]).children.countP
      (fun c => c.tag = qext "Resistance") = 0 ∧
     (∀ w, firstTag (qext "Watts") c8wTpx.children = some w → w.text = some "145.3" →
       firstTag (qext "Watts")
         (Elem.mk (qext "TPX") [] none
           [ .mk (qext "Watts") [] (some "145") [],
             .mk (qext "Speed") [] (some "7.3") [] ]).children =
         some (w.withText (some "145")))) :=
  ⟨by decide, by decide,
    c8_amended_first_resistance_removed c8wTpx _ (by decide) (by decide)⟩
